import Mathlib

/-!
# log-maker: a verification development

A shallow embedding of `log-maker/create.go` and theorems about it.

The Go program reads its environment in four ways: the random source
(`math/rand/v2`), the wall clock (`time.Now`), the unspecified iteration order
of a map, and the file system.  All four are made explicit in `World`.  The
sources of nondeterminism are streams indexed by "calls still to come": a call
takes element `0` and shifts the stream by one.

The output is kept at the level of bytes: `encoder.Encode` marshals an entry
into one JSON line and hands it to a `bufio.Writer` of 4096 bytes, which
reaches the file only when the buffer overflows or is flushed; `main` flushes
in a deferred call and drops the error of that flush.
-/

namespace LogMaker

/-! ## Data model -/

/-- Reasons for which the Go program aborts (a `panic`). -/
inductive Panic where
  /-- Slice index out of range (a Go run-time panic). -/
  | indexOutOfRange
  /-- The error returned by `strconv.Atoi`, raised with `panic(err)`. -/
  | atoiError
  /-- The panic of `rand.IntN` on an argument `n <= 0`. -/
  | intNArg
  /-- The error returned by `os.Create`, raised with `panic(err)`. -/
  | createError
  /-- The error returned by `encoder.Encode`, raised with `panic(err)`. -/
  | encodeError
deriving DecidableEq, Repr

/-- The package-level map `animalSounds`, as its key/value pairs in source order. -/
def animalSounds : List (String × String) :=
  [ ("cow", "moo"),
    ("pig", "oink"),
    ("dog", "woof"),
    ("cat", "meow"),
    ("bird", "squawk"),
    ("horse", "neigh"),
    ("goat", "??"),
    ("mouse", "squeak"),
    ("sheep", "bahh") ]

/-- Go map read `animalSounds[animal]`: the stored value, or the zero value `""`
when the key is absent. -/
def soundOf (animal : String) : String :=
  (animalSounds.lookup animal).getD ""

/-- The struct `Entry`.  `Timestamp` is an instant, kept as UTC nanoseconds since
the Unix epoch; `Happiness` and `ID` are Go `int`s. -/
structure Entry where
  Container : String
  Timestamp : Int
  Msg : String
  Level : String
  Happiness : Int
  ID : Int
deriving DecidableEq, Repr

/-- A JSON value as `encoding/json` produces them for the fields of `Entry`. -/
inductive JVal where
  | str (s : String)
  | num (n : Int)
  | time (t : Int)
deriving DecidableEq, Repr

/-- A JSON object: its members, in the order they are written. -/
abbrev JObj := List (String × JVal)

/-- The JSON object `encoding/json` writes for an `Entry`: one member per struct
field, in declaration order, named by the field's `json:"..."` tag. -/
def Entry.toJSON (e : Entry) : JObj :=
  [ ("container", JVal.str e.Container),
    ("timestamp", JVal.time e.Timestamp),
    ("msg", JVal.str e.Msg),
    ("level", JVal.str e.Level),
    ("happiness", JVal.num e.Happiness),
    ("id", JVal.num e.ID) ]

/-- A structured log record emitted through `slog.Info`. -/
inductive LogLine where
  /-- Message `"creating log"` with attribute `entries`. -/
  | creatingLog (entries : Int)
  /-- Message `"logging"` with attributes `entryNumber` and `remaining`. -/
  | logging (entryNumber remaining : Int)
  /-- Message `"done"`. -/
  | done
deriving DecidableEq, Repr

/-- Everything outside the program that it reads or writes, and the state of
the buffered writer.

* `raw`: the values the random source will produce, one per call;
* `clock`: the readings of the wall clock, one per call of `time.Now`;
* `mapSeed`: decides the (unspecified) iteration order of a `range` over a map;
* `createFails`: whether `os.Create("example.json")` returns an error;
* `writeFails`: the outcomes of the calls of `file.Write` still to come: `none`
  when the call writes all its bytes, `some n` when it fails after `n` bytes;
* `file`: the bytes of `example.json` (`none` when the file does not exist);
* `buf`: the bytes held in the `bufio.Writer`, not yet written to the file;
* `bufErr`: whether the `bufio.Writer` has recorded a write error (it then
  refuses every later write and flush);
* `logs`: what has been logged through `slog`. -/
structure World where
  raw : Nat → Nat
  clock : Nat → Int
  mapSeed : Nat → Nat
  createFails : Bool
  writeFails : Nat → Option Nat
  file : Option (List Nat)
  buf : List Nat
  bufErr : Bool
  logs : List LogLine

/-! ## Library calls -/

/-- One step of the random source: the next raw value and the source after it. -/
def nextRaw (w : World) : Nat × World :=
  (w.raw 0, { w with raw := fun k => w.raw (k + 1) })

/-- Library call `rand.IntN(n)`: panics when `n <= 0`, otherwise yields an integer of the
half-open interval `[0, n)`.  Every value of the interval is produced by some
raw value. -/
def rand.IntN (n : ℤ) (w : World) : Except Panic (ℤ × World) :=
  if n ≤ 0 then Except.error Panic.intNArg
  else Except.ok (((nextRaw w).1 : ℤ) % n, (nextRaw w).2)

/-- Library call `rand.Float32()`: a float32 of `[0.0, 1.0)`, that is a multiple of `2^-24`,
kept as an exact rational. -/
def rand.Float32 (w : World) : ℚ × World :=
  ((((nextRaw w).1 % 2 ^ 24 : Nat) : ℚ) / 2 ^ 24, (nextRaw w).2)

/-- Library call `rand.Int()`: a non-negative `int` (63 random bits). -/
def rand.Int (w : World) : ℤ × World :=
  ((((nextRaw w).1 % 2 ^ 63 : ℕ) : ℤ), (nextRaw w).2)

/-- The constant `0.01` of the comparison `rand.Float32() <= 0.01`: Go converts
it to float32, whose nearest value is `10737418 * 2^-30`. -/
def float32_0_01 : ℚ := 10737418 / 2 ^ 30

/-- Library call `time.Now().UTC()`: the next reading of the clock. -/
def time.NowUTC (w : World) : Int × World :=
  (w.clock 0, { w with clock := fun k => w.clock (k + 1) })

/-- Go slice indexing `xs[i]` with its bounds check. -/
def index (xs : List String) (i : Int) : Except Panic String :=
  if 0 ≤ i ∧ i < xs.length then Except.ok (xs.getD i.toNat "")
  else Except.error Panic.indexOutOfRange

/-- Library call `slog.Info`: appends a record to the log. -/
def slog.Info (l : LogLine) (w : World) : World :=
  { w with logs := w.logs ++ [l] }

/-- Library call `strconv.Atoi`: an optional sign followed by one or more decimal digits,
whose value fits a 64-bit `int`; anything else is an error. -/
def strconv.Atoi (s : String) : Except Panic Int :=
  let cs := s.toList
  let neg := cs.head? = some '-'
  let ds := if cs.head? = some '-' ∨ cs.head? = some '+' then cs.tail else cs
  if ds = [] ∨ ¬ ds.all Char.isDigit then Except.error Panic.atoiError
  else
    let v : Int := ds.foldl (fun a c => 10 * a + ((c.toNat - 48 : Nat) : Int)) 0
    let n : Int := if neg then -v else v
    if n < -(2 ^ 63) ∨ 2 ^ 63 - 1 < n then Except.error Panic.atoiError
    else Except.ok n

/-- Library call `os.Create("example.json")`: creates the file or truncates it to empty. -/
def os.Create (w : World) : Except Panic World :=
  if w.createFails then Except.error Panic.createError
  else Except.ok { w with file := some [] }

/-! ### The bytes of a JSON line -/

/-- The bytes of an ASCII text. -/
def ascii (s : String) : List Nat :=
  s.toList.map Char.toNat

/-- The UTF-8 bytes of a code point. -/
def utf8 (c : Nat) : List Nat :=
  if c < 128 then [c]
  else if c < 2048 then [192 + c / 64, 128 + c % 64]
  else if c < 65536 then [224 + c / 4096, 128 + c / 64 % 64, 128 + c % 64]
  else [240 + c / 262144, 128 + c / 4096 % 64, 128 + c / 64 % 64, 128 + c % 64]

/-- The lower-case hexadecimal digit of a value below 16. -/
def hexDigit (n : Nat) : Nat :=
  if n < 10 then 48 + n else 87 + n

/-- The bytes `encoding/json` writes for one character of a string (with the
HTML escaping that an `Encoder` has on by default): a backslash form for the
quote, the backslash and the control characters, a `\u00xx` form for the other
control characters and for `<`, `>`, `&`, a `\u202x` form for the two line
separators, and UTF-8 otherwise. -/
def escapeRune (c : Nat) : List Nat :=
  if c = 34 then [92, 34]
  else if c = 92 then [92, 92]
  else if c = 8 then [92, 98]
  else if c = 12 then [92, 102]
  else if c = 10 then [92, 110]
  else if c = 13 then [92, 114]
  else if c = 9 then [92, 116]
  else if c < 32 ∨ c = 60 ∨ c = 62 ∨ c = 38 then
    [92, 117, 48, 48, hexDigit (c / 16), hexDigit (c % 16)]
  else if c = 8232 ∨ c = 8233 then [92, 117, 50, 48, 50, hexDigit (c % 16)]
  else utf8 c

/-- A JSON string: the escaped characters between two quotes. -/
def jsonString (s : String) : List Nat :=
  34 :: ((s.toList.map (fun c => escapeRune c.toNat)).flatten ++ [34])

/-- Decimal digits of `n` in front of `acc`, most significant first. -/
def decimalAux : Nat → Nat → List Nat → List Nat
  | 0, _, acc => acc
  | fuel + 1, n, acc =>
    if n < 10 then (48 + n) :: acc
    else decimalAux fuel (n / 10) ((48 + n % 10) :: acc)

/-- A natural number in decimal. -/
def decimalNat (n : Nat) : List Nat :=
  decimalAux (n + 1) n []

/-- A Go `int` in decimal, as `encoding/json` writes it. -/
def decimalInt (n : Int) : List Nat :=
  if n < 0 then 45 :: decimalNat n.natAbs else decimalNat n.natAbs

/-- Two decimal digits. -/
def pad2 (n : Nat) : List Nat :=
  [48 + n / 10 % 10, 48 + n % 10]

/-- Four decimal digits. -/
def pad4 (n : Nat) : List Nat :=
  [48 + n / 1000 % 10, 48 + n / 100 % 10, 48 + n / 10 % 10, 48 + n % 10]

/-- The fraction of a second in RFC 3339 with nanoseconds: nothing when it is
zero, otherwise a dot and nine digits without their trailing zeros. -/
def fraction (nano : Nat) : List Nat :=
  if nano = 0 then []
  else 46 :: (((List.range 9).map (fun i => 48 + nano / 10 ^ (8 - i) % 10)).reverse.dropWhile
    (fun d => d = 48)).reverse

/-- A UTC instant broken down into calendar fields. -/
structure Civil where
  year : Int
  month : Nat
  day : Nat
  hour : Nat
  minute : Nat
  second : Nat
  nano : Nat
deriving DecidableEq, Repr

/-- The calendar fields (proleptic Gregorian calendar, UTC) of an instant given
in nanoseconds since the Unix epoch. -/
def civil (t : Int) : Civil :=
  let secs := t / 1000000000
  let days := secs / 86400
  let rem := (secs % 86400).toNat
  let z := days + 719468
  let era := z / 146097
  let doe := (z - era * 146097).toNat
  let yoe := (doe - doe / 1460 + doe / 36524 - doe / 146096) / 365
  let doy := doe - (365 * yoe + yoe / 4 - yoe / 100)
  let mp := (5 * doy + 2) / 153
  let month := if mp < 10 then mp + 3 else mp - 9
  { year := (yoe : Int) + era * 400 + (if month ≤ 2 then 1 else 0),
    month := month,
    day := doy - (153 * mp + 2) / 5 + 1,
    hour := rem / 3600,
    minute := rem / 60 % 60,
    second := rem % 60,
    nano := (t % 1000000000).toNat }

/-- Method `Time.MarshalJSON`: the instant as a quoted RFC 3339 string with
nanoseconds; an error (`none`) when the year is outside `[0, 9999]`. -/
def jsonTime (t : Int) : Option (List Nat) :=
  if (civil t).year < 0 ∨ 10000 ≤ (civil t).year then none
  else some (34 :: (pad4 (civil t).year.toNat ++ 45 :: (pad2 (civil t).month ++
    45 :: (pad2 (civil t).day ++ 84 :: (pad2 (civil t).hour ++ 58 :: (pad2 (civil t).minute ++
    58 :: (pad2 (civil t).second ++ (fraction (civil t).nano ++ [90, 34]))))))))

/-- The bytes of a JSON value. -/
def renderValue : JVal → Option (List Nat)
  | JVal.str s => some (jsonString s)
  | JVal.num n => some (decimalInt n)
  | JVal.time t => jsonTime t

/-- The members of a JSON object, each as `"key":value`, separated by commas. -/
def renderMembers : JObj → Option (List Nat)
  | [] => some []
  | (k, v) :: rest =>
    match renderValue v, renderMembers rest with
    | some b, some r =>
      some (jsonString k ++ 58 :: (b ++ (if rest = [] then r else 44 :: r)))
    | _, _ => none

/-- The bytes of a JSON object. -/
def renderObject (o : JObj) : Option (List Nat) :=
  match renderMembers o with
  | some r => some (123 :: (r ++ [125]))
  | none => none

/-- The line `encoder.Encode` produces for an entry: its JSON object followed
by a newline; `none` when marshalling fails. -/
def marshalLine (entry : Entry) : Option (List Nat) :=
  match renderObject entry.toJSON with
  | some o => some (o ++ [10])
  | none => none

/-! ### The buffered writer -/

/-- Size of the buffer of `bufio.NewWriter`. -/
def bufSize : Nat := 4096

/-- Call `file.Write(p)` on the output file: the number of bytes written,
whether it failed, and the world after it. -/
def fileWrite (p : List Nat) (w : World) : Nat × Bool × World :=
  match w.writeFails 0 with
  | none =>
    (p.length, false,
      { w with
        file := w.file.map (fun bs => bs ++ p)
        writeFails := fun k => w.writeFails (k + 1) })
  | some n =>
    (min n p.length, true,
      { w with
        file := w.file.map (fun bs => bs ++ p.take n)
        writeFails := fun k => w.writeFails (k + 1) })

/-- Library call `bufio.NewWriter(file)`: an empty buffer without error. -/
def bufio.NewWriter (w : World) : World :=
  { w with buf := [], bufErr := false }

/-- Method `(*bufio.Writer).Flush`: whether it returns an error, and the world
after it.  A recorded error is returned at once; an empty buffer is left alone;
otherwise the buffer is written to the file, and on failure the bytes that were
not written stay in the buffer and the error is recorded. -/
def bufio.Flush (w : World) : Bool × World :=
  if w.bufErr then (true, w)
  else if w.buf = [] then (false, w)
  else if (fileWrite w.buf w).2.1 then
    (true, { (fileWrite w.buf w).2.2 with
      buf := w.buf.drop (fileWrite w.buf w).1
      bufErr := true })
  else (false, { (fileWrite w.buf w).2.2 with buf := [] })

/-- The loop of `(*bufio.Writer).Write`: while `p` does not fit the free space
and no error is recorded, either write `p` straight to the file (empty buffer)
or fill the buffer and flush it.  Returns what is left of `p`. -/
def bufio.writeLoop : Nat → List Nat → World → List Nat × World
  | 0, p, w => (p, w)
  | fuel + 1, p, w =>
    if bufSize - w.buf.length < p.length ∧ w.bufErr = false then
      if w.buf = [] then
        bufio.writeLoop fuel (p.drop (fileWrite p w).1)
          { (fileWrite p w).2.2 with bufErr := (fileWrite p w).2.1 }
      else
        bufio.writeLoop fuel (p.drop (bufSize - w.buf.length))
          (bufio.Flush { w with buf := w.buf ++ p.take (bufSize - w.buf.length) }).2
    else (p, w)

/-- Method `(*bufio.Writer).Write(p)`: whether it returns an error, and the
world after it.  The loop runs at most twice before `p` fits or an error is
recorded (`writeLoop_exit`); what is left of `p` is then copied into the
buffer. -/
def bufio.Write (p : List Nat) (w : World) : Bool × World :=
  if (bufio.writeLoop 3 p w).2.bufErr then (true, (bufio.writeLoop 3 p w).2)
  else (false, { (bufio.writeLoop 3 p w).2 with
    buf := (bufio.writeLoop 3 p w).2.buf ++ (bufio.writeLoop 3 p w).1 })

/-- Library call `encoder.Encode(entry)`: the entry is marshalled into one JSON line, which
is written to the `bufio.Writer`.  A marshalling error leaves the world as it
is; a write error is returned with the world the write left behind. -/
def Encode (entry : Entry) (w : World) : Except (Panic × World) World :=
  match marshalLine entry with
  | none => Except.error (Panic.encodeError, w)
  | some line =>
    if (bufio.Write line w).1 then Except.error (Panic.encodeError, (bufio.Write line w).2)
    else Except.ok (bufio.Write line w).2

/-- The deferred calls of `main`, run when it returns or panics:
`bufferedWriter.Flush()`, whose error is dropped, then `file.Close()`. -/
def deferredCalls (w : World) : World :=
  (bufio.Flush w).2

/-- Keys of a map in the order a `range` statement visits them.  Go leaves the
order unspecified: each key is inserted at a position chosen by the seed, so
that the result is a permutation of the keys (`rangeKeys_perm`) and every
permutation arises from some seed (`rangeKeys_surjective`). -/
def rangeKeys (m : List (String × String)) (seed : Nat → Nat) : List String :=
  (m.map Prod.fst).foldl
    (fun acc k => acc.insertIdx (seed acc.length % (acc.length + 1)) k) []

/-! ## The program -/

/-- The `switch` of `createEntry` that turns the draw `randomNum` into a level. -/
def severity (randomNum : Int) : String :=
  if randomNum = 0 then "FATAL"
  else if randomNum ≥ 1 ∧ randomNum ≤ 10 then "ERROR"
  else if randomNum ≥ 11 ∧ randomNum < 140 then "WARN"
  else if randomNum ≥ 140 ∧ randomNum < 500 then "INFO"
  else "DEBUG"

/-- Function `createEntry(id, animals)`. -/
def createEntry (id : Int) (animals : List String) (w : World) :
    Except Panic (Entry × World) :=
  match rand.IntN animals.length w with
  | Except.error p => Except.error p
  | Except.ok (animalIndex, w1) =>
    match index animals animalIndex with
    | Except.error p => Except.error p
    | Except.ok animal =>
      let sound := soundOf animal
      let substituted : Except Panic (String × World) :=
        if (rand.Float32 w1).1 ≤ float32_0_01 then
          match rand.IntN animals.length (rand.Float32 w1).2 with
          | Except.error p => Except.error p
          | Except.ok (otherIndex, w2) =>
            match index animals otherIndex with
            | Except.error p => Except.error p
            | Except.ok otherAnimal => Except.ok (soundOf otherAnimal, w2)
        else Except.ok (sound, (rand.Float32 w1).2)
      match substituted with
      | Except.error p => Except.error p
      | Except.ok (sound, w3) =>
        match rand.IntN 10000 w3 with
        | Except.error p => Except.error p
        | Except.ok (randomNum, w4) =>
          let level := severity randomNum
          Except.ok
            ({ Container := animal,
               Timestamp := (time.NowUTC w4).1,
               Msg := sound,
               Level := level,
               Happiness := (rand.Int (time.NowUTC w4).2).1,
               ID := id },
             (rand.Int (time.NowUTC w4).2).2)

/-- One iteration of the loop of `main`, at index `i`.  A panic is returned
together with the world it leaves behind. -/
def loopBody (numEntries : Int) (animals : List String) (i : Int) (w : World) :
    Except (Panic × World) World :=
  let w0 := if i % 1000000 = 0 then slog.Info (LogLine.logging i (numEntries - i)) w else w
  match createEntry i animals w0 with
  | Except.error p => Except.error (p, w0)
  | Except.ok (entry, w1) =>
    match Encode entry w1 with
    | Except.error e => Except.error e
    | Except.ok w2 => Except.ok w2

/-- The iterations of `for i := range numEntries` that remain: `k` of them, the
next one at index `i`. -/
def rangeLoop (numEntries : Int) (animals : List String) :
    Nat → Int → World → Except (Panic × World) World
  | 0, _, w => Except.ok w
  | k + 1, i, w =>
    match loopBody numEntries animals i w with
    | Except.error e => Except.error e
    | Except.ok w1 => rangeLoop numEntries animals k (i + 1) w1

/-- The generation loop `for i := range numEntries`: the indices `0` to
`numEntries - 1` in order, none when `numEntries <= 0`. -/
def generate (numEntries : Int) (animals : List String) (w : World) :
    Except (Panic × World) World :=
  rangeLoop numEntries animals numEntries.toNat 0 w

/-- Function `main`, on the command line `args` (`os.Args`). -/
def main (args : List String) (w : World) : Except (Panic × World) World :=
  match args[1]? with
  | none => Except.error (Panic.indexOutOfRange, w)
  | some arg =>
    match strconv.Atoi arg with
    | Except.error _ => Except.error (Panic.atoiError, w)
    | Except.ok numEntries =>
      let w0 := slog.Info (LogLine.creatingLog numEntries) w
      let animals := rangeKeys animalSounds w0.mapSeed
      match os.Create w0 with
      | Except.error p => Except.error (p, w0)
      | Except.ok w1 =>
        match generate numEntries animals (bufio.NewWriter w1) with
        | Except.error (p, w2) => Except.error (p, deferredCalls w2)
        | Except.ok w2 => Except.ok (deferredCalls (slog.Info LogLine.done w2))

/-! ## Reading the output -/

/-- The value under key `"id"` of a JSON object, when it is a number. -/
def idOf (o : JObj) : Option Int :=
  match o.lookup "id" with
  | some (JVal.num n) => some n
  | _ => none

/-- A world for examples: every draw is `0`, the clock stands at `0`, nothing
fails, and `example.json` does not exist yet. -/
def calmWorld : World :=
  { raw := fun _ => 0,
    clock := fun _ => 0,
    mapSeed := fun k => k,
    createFails := false,
    writeFails := fun _ => none,
    file := none,
    buf := [],
    bufErr := false,
    logs := [] }

/-- A world for examples: like `calmWorld`, but every draw of the random source
is `2^23`, so that `rand.Float32` yields one half. -/
def midWorld : World :=
  { calmWorld with raw := fun _ => 8388608 }

/-- A world for examples: `calmWorld` once `example.json` has been created empty. -/
def openWorld : World :=
  { calmWorld with file := some [] }

/-- A world for examples: `calmWorld` on a full disk, where every write to the
file fails without writing a byte. -/
def fullDiskWorld : World :=
  { calmWorld with writeFails := fun _ => some 0 }

/-- The bytes handed to the writer so far: those in the file followed by those
still in the buffer. -/
def stream (w : World) : List Nat :=
  w.file.getD [] ++ w.buf

/-- An entry for examples. -/
def sampleEntry : Entry :=
  { Container := "cow", Timestamp := 0, Msg := "moo", Level := "DEBUG", Happiness := 5, ID := 0 }

/-- Field names of the specification's LogEntry, in the specification's order
(this list follows the words of the specification, not the source). -/
def specFieldNames : List String :=
  ["container", "timestamp", "message", "level", "happiness", "id"]

/-- A reader of one output line: it looks every field up by its key, the
message under `msgKey`, and fails when a key is missing or of the wrong kind. -/
def readEntry (msgKey : String) (o : JObj) : Option Entry :=
  match o.lookup "container", o.lookup "timestamp", o.lookup msgKey,
      o.lookup "level", o.lookup "happiness", o.lookup "id" with
  | some (JVal.str c), some (JVal.time t), some (JVal.str m),
      some (JVal.str l), some (JVal.num h), some (JVal.num i) =>
    some { Container := c, Timestamp := t, Msg := m, Level := l, Happiness := h, ID := i }
  | _, _, _, _, _, _ => none

/-- The five level names. -/
def levels : List String := ["DEBUG", "INFO", "WARN", "ERROR", "FATAL"]

/-- The keys of `animalSounds`, in source order. -/
def animalKeys : List String := animalSounds.map Prod.fst

/-- The panic a run ended with, if any. -/
def panicOf (r : Except (Panic × World) World) : Option Panic :=
  match r with
  | Except.ok _ => none
  | Except.error (p, _) => some p

/-- The world a run left behind, whether it returned or panicked. -/
def worldOf (r : Except (Panic × World) World) : World :=
  match r with
  | Except.ok w => w
  | Except.error (_, w) => w

/-! ## Auxiliary facts -/

/-! ### The bytes of a line -/

/-- A hexadecimal digit is not the newline byte. -/
theorem hexDigit_ne (n : Nat) : hexDigit n ≠ 10 := by
  unfold hexDigit
  split_ifs <;> omega

/-- The UTF-8 bytes of a code point other than the newline hold no newline byte. -/
theorem utf8_noLF (c : Nat) (h : ¬ c = 10) : 10 ∉ utf8 c := by
  unfold utf8
  split_ifs <;>
    simp only [List.mem_cons, List.mem_singleton, List.not_mem_nil, or_false, not_or] <;>
    omega

/-- An escaped character holds no newline byte. -/
theorem escapeRune_noLF (c : Nat) : 10 ∉ escapeRune c := by
  have h1 := hexDigit_ne (c / 16)
  have h2 := hexDigit_ne (c % 16)
  unfold escapeRune
  split_ifs with a1 a2 a3 a4 a5 a6 a7 a8 a9
  all_goals first
    | exact utf8_noLF c a5
    | (simp only [List.mem_cons, List.mem_singleton, List.not_mem_nil, or_false, not_or]
       omega)

/-- A JSON string holds no newline byte. -/
theorem jsonString_noLF (s : String) : 10 ∉ jsonString s := by
  unfold jsonString
  simp only [List.mem_cons, List.mem_append, List.mem_flatten, List.mem_map, List.mem_singleton,
    not_or, not_exists, not_and]
  refine ⟨by decide, ?_, by decide⟩
  rintro l ⟨c, -, rfl⟩
  exact escapeRune_noLF _

/-- Decimal digits hold no newline byte. -/
theorem decimalAux_noLF (fuel : Nat) : ∀ (n : Nat) (acc : List Nat),
    10 ∉ acc → 10 ∉ decimalAux fuel n acc := by
  induction fuel with
  | zero => intro n acc h; exact h
  | succ fuel ih =>
    intro n acc h
    unfold decimalAux
    split_ifs
    · simp only [List.mem_cons, not_or]
      exact ⟨by omega, h⟩
    · apply ih
      simp only [List.mem_cons, not_or]
      exact ⟨by omega, h⟩

/-- A decimal integer holds no newline byte. -/
theorem decimalInt_noLF (n : Int) : 10 ∉ decimalInt n := by
  unfold decimalInt decimalNat
  split_ifs
  · simp only [List.mem_cons, not_or]
    exact ⟨by decide, decimalAux_noLF _ _ _ (List.not_mem_nil _)⟩
  · exact decimalAux_noLF _ _ _ (List.not_mem_nil _)

/-- Two digits hold no newline byte. -/
theorem pad2_noLF (n : Nat) : 10 ∉ pad2 n := by
  unfold pad2
  simp only [List.mem_cons, List.mem_singleton, List.not_mem_nil, or_false, not_or]
  omega

/-- Four digits hold no newline byte. -/
theorem pad4_noLF (n : Nat) : 10 ∉ pad4 n := by
  unfold pad4
  simp only [List.mem_cons, List.mem_singleton, List.not_mem_nil, or_false, not_or]
  omega

/-- The fraction of a second holds no newline byte. -/
theorem fraction_noLF (n : Nat) : 10 ∉ fraction n := by
  unfold fraction
  split_ifs
  · exact List.not_mem_nil _
  · simp only [List.mem_cons, List.mem_reverse, not_or]
    refine ⟨by decide, fun h => ?_⟩
    have h2 := (List.dropWhile_suffix _).subset h
    simp only [List.mem_reverse, List.mem_map, List.mem_range] at h2
    obtain ⟨i, -, hi⟩ := h2
    omega

/-- A marshalled instant holds no newline byte. -/
theorem jsonTime_noLF (t : Int) (bs : List Nat) (h : jsonTime t = some bs) : 10 ∉ bs := by
  unfold jsonTime at h
  split_ifs at h
  have h2 := Option.some.inj h
  subst h2
  have h4 := pad4_noLF (civil t).year.toNat
  have hm := pad2_noLF (civil t).month
  have hd := pad2_noLF (civil t).day
  have hh := pad2_noLF (civil t).hour
  have hmi := pad2_noLF (civil t).minute
  have hs := pad2_noLF (civil t).second
  have hf := fraction_noLF (civil t).nano
  simp only [List.mem_cons, List.mem_append, List.mem_singleton, List.not_mem_nil, or_false,
    not_or]
  exact ⟨by decide, h4, by decide, hm, by decide, hd, by decide, hh, by decide, hmi,
    by decide, hs, hf, by decide, by decide⟩

/-- A rendered value holds no newline byte. -/
theorem renderValue_noLF (v : JVal) (bs : List Nat) (h : renderValue v = some bs) :
    10 ∉ bs := by
  cases v with
  | str s => rw [← Option.some.inj h]; exact jsonString_noLF s
  | num n => rw [← Option.some.inj h]; exact decimalInt_noLF n
  | time t => exact jsonTime_noLF t bs h

/-- The rendered members of an object hold no newline byte. -/
theorem renderMembers_noLF (o : JObj) : ∀ bs : List Nat,
    renderMembers o = some bs → 10 ∉ bs := by
  induction o with
  | nil =>
    intro bs h
    rw [← Option.some.inj h]
    exact List.not_mem_nil _
  | cons kv rest ih =>
    intro bs h
    obtain ⟨k, v⟩ := kv
    unfold renderMembers at h
    cases hv : renderValue v with
    | none => simp [hv] at h
    | some b =>
      cases hr : renderMembers rest with
      | none => simp [hv, hr] at h
      | some r =>
        simp only [hv, hr] at h
        rw [← Option.some.inj h]
        have h1 := jsonString_noLF k
        have h2 := renderValue_noLF v b hv
        have h3 := ih r hr
        split_ifs <;>
          simp only [List.mem_cons, List.mem_append, not_or] <;>
          first
            | exact ⟨h1, by decide, h2, h3⟩
            | exact ⟨h1, by decide, h2, by decide, h3⟩

/-- A marshalled line is a JSON object without newline byte followed by one
newline byte. -/
theorem marshalLine_shape (e : Entry) (line : List Nat) (h : marshalLine e = some line) :
    ∃ o, renderObject e.toJSON = some o ∧ line = o ++ [10] ∧ 10 ∉ o := by
  unfold marshalLine at h
  cases ho : renderObject e.toJSON with
  | none => simp [ho] at h
  | some o =>
    simp only [ho] at h
    refine ⟨o, rfl, (Option.some.inj h).symm, ?_⟩
    unfold renderObject at ho
    cases hm : renderMembers e.toJSON with
    | none => simp [hm] at ho
    | some r =>
      simp only [hm] at ho
      rw [← Option.some.inj ho]
      have h3 := renderMembers_noLF _ r hm
      simp only [List.mem_cons, List.mem_append, List.mem_singleton, List.not_mem_nil,
        or_false, not_or]
      exact ⟨by decide, h3, by decide⟩

/-- A marshalled line holds exactly one newline byte. -/
theorem marshalLine_count (e : Entry) (line : List Nat) (h : marshalLine e = some line) :
    line.count 10 = 1 := by
  obtain ⟨o, -, rfl, ho⟩ := marshalLine_shape e line h
  rw [List.count_append, List.count_eq_zero_of_not_mem ho]
  rfl

/-- The digits of `decimalAux` read back as the number, when the fuel exceeds it. -/
theorem decimalAux_value (fuel : Nat) : ∀ (n : Nat) (acc : List Nat), n < fuel →
    (decimalAux fuel n acc).foldl (fun a d => 10 * a + (d - 48)) 0
      = acc.foldl (fun a d => 10 * a + (d - 48)) n := by
  induction fuel with
  | zero => intro n acc h; omega
  | succ fuel ih =>
    intro n acc h
    unfold decimalAux
    split_ifs with h10
    · simp only [List.foldl_cons]
      congr 1
      omega
    · rw [ih (n / 10) _ (by omega)]
      simp only [List.foldl_cons]
      congr 1
      omega

/-- The decimal digits of a number read back as the number: `decimalNat` never
runs out of fuel. -/
theorem decimalNat_value (n : Nat) :
    (decimalNat n).foldl (fun a d => 10 * a + (d - 48)) 0 = n := by
  unfold decimalNat
  rw [decimalAux_value (n + 1) n [] (Nat.lt_succ_self n)]
  rfl

/-- The Unix epoch marshals as `"1970-01-01T00:00:00Z"`. -/
theorem jsonTime_epoch : jsonTime 0 = some (ascii "\"1970-01-01T00:00:00Z\"") := by
  decide

/-- The instant 1762259220.123456 s after the epoch marshals as
`"2025-11-04T12:27:00.123456Z"`, the last nanosecond before the epoch as
`"1969-12-31T23:59:59.999999999Z"`, and the first instant of the year 10000
does not marshal. -/
theorem jsonTime_samples :
    jsonTime 1762259220123456000 = some (ascii "\"2025-11-04T12:27:00.123456Z\"") ∧
    jsonTime (-1) = some (ascii "\"1969-12-31T23:59:59.999999999Z\"") ∧
    jsonTime 253402300800000000000 = none := by
  decide

/-- The Unix epoch marshals. -/
theorem epoch_marshals : (jsonTime 0).isSome = true := by
  rw [jsonTime_epoch]
  rfl

/-- Rendering one more member in front of rendered members. -/
theorem renderMembers_cons (k : String) (v : JVal) (rest : JObj) (b r : List Nat)
    (hv : renderValue v = some b) (hr : renderMembers rest = some r) :
    renderMembers ((k, v) :: rest)
      = some (jsonString k ++ 58 :: (b ++ (if rest = [] then r else 44 :: r))) := by
  rw [renderMembers]
  simp only [hv, hr]

/-- Marshalling an entry succeeds when marshalling its timestamp does. -/
theorem marshalLine_isSome (e : Entry) (bs : List Nat) (h : jsonTime e.Timestamp = some bs) :
    ∃ line, marshalLine e = some line := by
  have h6 := renderMembers_cons "id" (JVal.num e.ID) [] _ _ rfl rfl
  have h5 := renderMembers_cons "happiness" (JVal.num e.Happiness) _ _ _ rfl h6
  have h4 := renderMembers_cons "level" (JVal.str e.Level) _ _ _ rfl h5
  have h3 := renderMembers_cons "msg" (JVal.str e.Msg) _ _ _ rfl h4
  have h2 := renderMembers_cons "timestamp" (JVal.time e.Timestamp) _ _ _ h h3
  have h1 := renderMembers_cons "container" (JVal.str e.Container) _ _ _ rfl h2
  unfold marshalLine renderObject Entry.toJSON
  rw [h1]
  exact ⟨_, rfl⟩

/-! ### The buffered writer -/

/-- A world that has recorded a write error, or whose write fits the free
space, leaves the loop of `Write` at once. -/
theorem writeLoop_stop (fuel : Nat) (p : List Nat) (w : World)
    (h : ¬ (bufSize - w.buf.length < p.length ∧ w.bufErr = false)) :
    bufio.writeLoop fuel p w = (p, w) := by
  cases fuel with
  | zero => rfl
  | succ fuel => rw [bufio.writeLoop, if_neg h]

/-- What `file.Write` leaves untouched. -/
theorem fileWrite_frame (p : List Nat) (w : World) :
    (fileWrite p w).2.2.raw = w.raw ∧ (fileWrite p w).2.2.clock = w.clock ∧
    (fileWrite p w).2.2.mapSeed = w.mapSeed ∧
    (fileWrite p w).2.2.createFails = w.createFails ∧
    (fileWrite p w).2.2.logs = w.logs ∧ (fileWrite p w).2.2.buf = w.buf ∧
    (fileWrite p w).2.2.bufErr = w.bufErr := by
  unfold fileWrite
  cases w.writeFails 0 <;> exact ⟨rfl, rfl, rfl, rfl, rfl, rfl, rfl⟩

/-- The file after `file.Write`: it exists if it did, and after a write that
did not fail it holds all the bytes written. -/
theorem fileWrite_file (p : List Nat) (w : World) (f : List Nat) (hf : w.file = some f) :
    ∃ f2, (fileWrite p w).2.2.file = some f2 ∧
      ((fileWrite p w).2.1 = false → f2 = f ++ p ∧ (fileWrite p w).1 = p.length) := by
  unfold fileWrite
  cases w.writeFails 0 with
  | none => exact ⟨f ++ p, by simp [hf], fun _ => ⟨rfl, rfl⟩⟩
  | some n => exact ⟨f ++ p.take n, by simp [hf], by intro h; cases h⟩

/-- A call of `file.Write` that the environment lets through. -/
theorem fileWrite_ok (p : List Nat) (w : World) (h : ∀ k, w.writeFails k = none) :
    (fileWrite p w).1 = p.length ∧ (fileWrite p w).2.1 = false ∧
    ∀ k, (fileWrite p w).2.2.writeFails k = none := by
  unfold fileWrite
  rw [h 0]
  exact ⟨rfl, rfl, fun k => h (k + 1)⟩

/-- What `Flush` leaves untouched, and the bytes after a flush that recorded
no error: all of them are kept, in order. -/
theorem flush_spec (w : World) (f : List Nat) (hf : w.file = some f) :
    ∃ f2, (bufio.Flush w).2.file = some f2 ∧
      (bufio.Flush w).2.raw = w.raw ∧ (bufio.Flush w).2.clock = w.clock ∧
      (bufio.Flush w).2.mapSeed = w.mapSeed ∧
      (bufio.Flush w).2.createFails = w.createFails ∧
      (bufio.Flush w).2.logs = w.logs ∧
      ((bufio.Flush w).2.bufErr = false → f2 ++ (bufio.Flush w).2.buf = f ++ w.buf) := by
  obtain ⟨h1, h2, h3, h4, h5, -, -⟩ := fileWrite_frame w.buf w
  obtain ⟨f2, h8, h9⟩ := fileWrite_file w.buf w f hf
  unfold bufio.Flush
  split_ifs with a b c
  · exact ⟨f, hf, rfl, rfl, rfl, rfl, rfl, fun _ => rfl⟩
  · exact ⟨f, hf, rfl, rfl, rfl, rfl, rfl, fun _ => rfl⟩
  · exact ⟨f2, h8, h1, h2, h3, h4, h5, by intro h; cases h⟩
  · refine ⟨f2, h8, h1, h2, h3, h4, h5, fun _ => ?_⟩
    have h10 := (h9 (by simpa using c)).1
    simp only [List.append_nil]
    exact h10

/-- A flush that the environment lets through. -/
theorem flush_ok (w : World) (he : w.bufErr = false) (h : ∀ k, w.writeFails k = none) :
    (bufio.Flush w).1 = false ∧ (bufio.Flush w).2.bufErr = false ∧
    (bufio.Flush w).2.buf = [] ∧
    ∀ k, (bufio.Flush w).2.writeFails k = none := by
  obtain ⟨-, h2, h3⟩ := fileWrite_ok w.buf w h
  obtain ⟨-, -, -, -, -, -, h7⟩ := fileWrite_frame w.buf w
  unfold bufio.Flush
  rw [he]
  simp only [Bool.false_eq_true, if_false, h2]
  split_ifs with b
  · exact ⟨rfl, he, b, h⟩
  · exact ⟨rfl, by rw [← he, ← h7], rfl, h3⟩

/-- What the loop of `Write` leaves untouched, and the bytes after a loop that
recorded no error: file, buffer and what is left of `p` hold, in order, the
former bytes followed by `p`. -/
theorem writeLoop_spec (fuel : Nat) : ∀ (p : List Nat) (w : World) (f : List Nat),
    w.file = some f →
    ∃ f2, (bufio.writeLoop fuel p w).2.file = some f2 ∧
      (bufio.writeLoop fuel p w).2.raw = w.raw ∧
      (bufio.writeLoop fuel p w).2.clock = w.clock ∧
      (bufio.writeLoop fuel p w).2.mapSeed = w.mapSeed ∧
      (bufio.writeLoop fuel p w).2.createFails = w.createFails ∧
      (bufio.writeLoop fuel p w).2.logs = w.logs ∧
      ((bufio.writeLoop fuel p w).2.bufErr = false →
        f2 ++ ((bufio.writeLoop fuel p w).2.buf ++ (bufio.writeLoop fuel p w).1)
          = f ++ (w.buf ++ p)) := by
  induction fuel with
  | zero =>
    intro p w f hf
    exact ⟨f, hf, rfl, rfl, rfl, rfl, rfl, fun _ => rfl⟩
  | succ fuel ih =>
    intro p w f hf
    by_cases hc : bufSize - w.buf.length < p.length ∧ w.bufErr = false
    · by_cases hb : w.buf = []
      · obtain ⟨g1, g2, g3, g4, g5, g6, g7⟩ := fileWrite_frame p w
        obtain ⟨f1, h8, h9⟩ := fileWrite_file p w f hf
        obtain ⟨f2, i1, i2, i3, i4, i5, i6, i7⟩ :=
          ih (p.drop (fileWrite p w).1)
            { (fileWrite p w).2.2 with bufErr := (fileWrite p w).2.1 } f1 h8
        rw [bufio.writeLoop, if_pos hc, if_pos hb]
        refine ⟨f2, i1, i2.trans g1, i3.trans g2, i4.trans g3, i5.trans g4, i6.trans g5, ?_⟩
        intro he
        by_cases hw : (fileWrite p w).2.1 = false
        · obtain ⟨h10, h11⟩ := h9 hw
          refine (i7 he).trans ?_
          show f1 ++ ((fileWrite p w).2.2.buf ++ p.drop (fileWrite p w).1) = f ++ (w.buf ++ p)
          rw [g6, h10, h11, hb, List.drop_length]
          simp only [List.nil_append, List.append_nil]
        · have hstop := writeLoop_stop fuel (p.drop (fileWrite p w).1)
            { (fileWrite p w).2.2 with bufErr := (fileWrite p w).2.1 }
            (by simp only [not_and]; intro _; exact hw)
          rw [hstop] at he
          exact absurd he hw
      · obtain ⟨f1, j1, j2, j3, j4, j5, j6, j7⟩ :=
          flush_spec { w with buf := w.buf ++ p.take (bufSize - w.buf.length) } f hf
        obtain ⟨f2, i1, i2, i3, i4, i5, i6, i7⟩ :=
          ih (p.drop (bufSize - w.buf.length))
            (bufio.Flush { w with buf := w.buf ++ p.take (bufSize - w.buf.length) }).2 f1 j1
        rw [bufio.writeLoop, if_pos hc, if_neg hb]
        refine ⟨f2, i1, i2.trans j2, i3.trans j3, i4.trans j4, i5.trans j5, i6.trans j6, ?_⟩
        intro he
        by_cases hw : (bufio.Flush
            { w with buf := w.buf ++ p.take (bufSize - w.buf.length) }).2.bufErr = false
        · refine (i7 he).trans ?_
          rw [← List.append_assoc, j7 hw]
          simp only [List.append_assoc, List.take_append_drop]
        · have hstop := writeLoop_stop fuel (p.drop (bufSize - w.buf.length))
            (bufio.Flush { w with buf := w.buf ++ p.take (bufSize - w.buf.length) }).2
            (by simp only [not_and]; intro _; exact hw)
          rw [hstop] at he
          exact absurd he hw
    · rw [writeLoop_stop (fuel + 1) p w hc]
      exact ⟨f, hf, rfl, rfl, rfl, rfl, rfl, fun _ => rfl⟩

/-- The loop of `Write` when the environment lets every write through. -/
theorem writeLoop_ok (fuel : Nat) : ∀ (p : List Nat) (w : World),
    w.bufErr = false → (∀ k, w.writeFails k = none) →
    (bufio.writeLoop fuel p w).2.bufErr = false ∧
    ∀ k, (bufio.writeLoop fuel p w).2.writeFails k = none := by
  induction fuel with
  | zero => intro p w he h; exact ⟨he, h⟩
  | succ fuel ih =>
    intro p w he h
    by_cases hc : bufSize - w.buf.length < p.length ∧ w.bufErr = false
    · by_cases hb : w.buf = []
      · obtain ⟨-, h2, h3⟩ := fileWrite_ok p w h
        rw [bufio.writeLoop, if_pos hc, if_pos hb]
        exact ih _ _ h2 h3
      · obtain ⟨-, h2, -, h3⟩ :=
          flush_ok { w with buf := w.buf ++ p.take (bufSize - w.buf.length) } he h
        rw [bufio.writeLoop, if_pos hc, if_neg hb]
        exact ih _ _ h2 h3
    · rw [writeLoop_stop (fuel + 1) p w hc]
      exact ⟨he, h⟩

/-- A write that fits the free space of a writer without recorded error only
copies into the buffer: it cannot fail, whatever the file does. -/
theorem write_fits (p : List Nat) (w : World) (he : w.bufErr = false)
    (h : p.length ≤ bufSize - w.buf.length) :
    bufio.Write p w = (false, { w with buf := w.buf ++ p }) := by
  unfold bufio.Write
  rw [writeLoop_stop 3 p w (by intro hc; omega)]
  simp only [he, Bool.false_eq_true, if_false]

/-- A call of `Write` that returns no error has taken all of `p`: file and
buffer together hold the former bytes followed by `p`. -/
theorem write_spec (p : List Nat) (w : World) (f : List Nat) (hf : w.file = some f) :
    ∃ f2, (bufio.Write p w).2.file = some f2 ∧
      (bufio.Write p w).2.raw = w.raw ∧ (bufio.Write p w).2.clock = w.clock ∧
      (bufio.Write p w).2.mapSeed = w.mapSeed ∧
      (bufio.Write p w).2.createFails = w.createFails ∧
      (bufio.Write p w).2.logs = w.logs ∧
      ((bufio.Write p w).1 = false →
        (bufio.Write p w).2.bufErr = false ∧
        f2 ++ (bufio.Write p w).2.buf = f ++ (w.buf ++ p)) := by
  obtain ⟨f2, i1, i2, i3, i4, i5, i6, i7⟩ := writeLoop_spec 3 p w f hf
  unfold bufio.Write
  by_cases he : (bufio.writeLoop 3 p w).2.bufErr = true
  · rw [if_pos he]
    exact ⟨f2, i1, i2, i3, i4, i5, i6, fun h => Bool.noConfusion h⟩
  · rw [if_neg he]
    have he2 : (bufio.writeLoop 3 p w).2.bufErr = false := by simpa using he
    exact ⟨f2, i1, i2, i3, i4, i5, i6, fun _ => ⟨he2, i7 he2⟩⟩

/-- A call of `Write` when the environment lets every write through. -/
theorem write_ok (p : List Nat) (w : World) (he : w.bufErr = false)
    (h : ∀ k, w.writeFails k = none) :
    (bufio.Write p w).1 = false ∧ (bufio.Write p w).2.bufErr = false ∧
    ∀ k, (bufio.Write p w).2.writeFails k = none := by
  obtain ⟨h1, h2⟩ := writeLoop_ok 3 p w he h
  unfold bufio.Write
  rw [h1]
  simp only [Bool.false_eq_true, if_false]
  exact ⟨trivial, h1, h2⟩

/-- A flush of a non-empty buffer either records an error or empties the buffer. -/
theorem flush_empties (w : World) (hb : w.buf ≠ []) (he : (bufio.Flush w).2.bufErr = false) :
    (bufio.Flush w).2.buf = [] := by
  unfold bufio.Flush at he ⊢
  by_cases a : w.bufErr = true
  · rw [if_pos a] at he
    exact absurd a (by simpa using he)
  · rw [if_neg a, if_neg hb] at he ⊢
    by_cases c : (fileWrite w.buf w).2.1 = true
    · rw [if_pos c] at he
      cases he
    · rw [if_neg c]

/-- Started on an empty buffer, one round of the loop of `Write` is enough:
afterwards what is left fits the free space or an error is recorded. -/
theorem writeLoop_exit_empty (fuel : Nat) (p : List Nat) (w : World) (hb : w.buf = []) :
    ¬ (bufSize - (bufio.writeLoop (fuel + 1) p w).2.buf.length
        < (bufio.writeLoop (fuel + 1) p w).1.length ∧
      (bufio.writeLoop (fuel + 1) p w).2.bufErr = false) := by
  by_cases hc : bufSize - w.buf.length < p.length ∧ w.bufErr = false
  · rw [bufio.writeLoop, if_pos hc, if_pos hb]
    have hstop : bufio.writeLoop fuel (p.drop (fileWrite p w).1)
        { (fileWrite p w).2.2 with bufErr := (fileWrite p w).2.1 }
        = (p.drop (fileWrite p w).1,
            { (fileWrite p w).2.2 with bufErr := (fileWrite p w).2.1 }) := by
      apply writeLoop_stop
      unfold fileWrite
      cases w.writeFails 0 <;> simp
    rw [hstop]
    unfold fileWrite
    cases w.writeFails 0 <;> simp
  · rw [writeLoop_stop (fuel + 1) p w hc]
    exact hc

/-- Two rounds of the loop of `Write` are enough: afterwards what is left of
`p` fits the free space or an error is recorded, so the loop has ended by its
own condition. -/
theorem writeLoop_exit (fuel : Nat) (p : List Nat) (w : World) :
    ¬ (bufSize - (bufio.writeLoop (fuel + 2) p w).2.buf.length
        < (bufio.writeLoop (fuel + 2) p w).1.length ∧
      (bufio.writeLoop (fuel + 2) p w).2.bufErr = false) := by
  by_cases hc : bufSize - w.buf.length < p.length ∧ w.bufErr = false
  · by_cases hb : w.buf = []
    · exact writeLoop_exit_empty (fuel + 1) p w hb
    · rw [bufio.writeLoop, if_pos hc, if_neg hb]
      by_cases he : (bufio.Flush
          { w with buf := w.buf ++ p.take (bufSize - w.buf.length) }).2.bufErr = false
      · apply writeLoop_exit_empty
        apply flush_empties _ _ he
        intro h
        exact hb (List.append_eq_nil.mp h).1
      · rw [writeLoop_stop]
        · intro h
          exact he h.2
        · intro h
          exact he h.2
  · rw [writeLoop_stop (fuel + 2) p w hc]
    exact hc


/-! ### The program -/

/-- The switch yields one of the five level names on every integer. -/
theorem severity_mem_levels (r : Int) : severity r ∈ levels := by
  unfold severity levels
  split_ifs <;> simp

/-- The draws that give FATAL. -/
theorem severity_eq_fatal_iff (r : Int) : severity r = "FATAL" ↔ r = 0 := by
  unfold severity
  split_ifs <;> simp_all

/-- The draws that give ERROR. -/
theorem severity_eq_error_iff (r : Int) : severity r = "ERROR" ↔ 1 ≤ r ∧ r ≤ 10 := by
  unfold severity
  split_ifs <;> simp_all

/-- The draws that give WARN. -/
theorem severity_eq_warn_iff (r : Int) : severity r = "WARN" ↔ 11 ≤ r ∧ r < 140 := by
  unfold severity
  split_ifs
  all_goals simp_all
  all_goals omega

/-- The draws that give INFO. -/
theorem severity_eq_info_iff (r : Int) : severity r = "INFO" ↔ 140 ≤ r ∧ r < 500 := by
  unfold severity
  split_ifs
  all_goals simp_all
  all_goals omega

/-- The integers that give DEBUG. -/
theorem severity_eq_debug_iff (r : Int) : severity r = "DEBUG" ↔ r < 0 ∨ 500 ≤ r := by
  unfold severity
  split_ifs
  all_goals simp_all
  all_goals omega

/-- On a positive bound `rand.IntN` returns the raw value reduced into range. -/
theorem randIntN_ok (n : Int) (w : World) (hn : 0 < n) :
    rand.IntN n w = Except.ok (((nextRaw w).1 : Int) % n, (nextRaw w).2) := by
  unfold rand.IntN
  rw [if_neg (by omega)]

/-- Every value of `[0, n)` is a possible result of `rand.IntN(n)`. -/
theorem randIntN_surjective (n v : Int) (w : World) (h0 : 0 ≤ v) (h1 : v < n) :
    rand.IntN n { w with raw := fun _ => v.toNat }
      = Except.ok (v, (nextRaw { w with raw := fun _ => v.toNat }).2) := by
  rw [randIntN_ok n _ (lt_of_le_of_lt h0 h1)]
  have hv : ((nextRaw { w with raw := fun _ => v.toNat }).1 : Int) = v := by
    show ((v.toNat : Nat) : Int) = v
    exact Int.toNat_of_nonneg h0
  rw [hv, Int.emod_eq_of_lt h0 h1]

/-- On a bound `n <= 0` the call `rand.IntN(n)` panics. -/
theorem randIntN_error (n : Int) (w : World) (hn : n ≤ 0) :
    rand.IntN n w = Except.error Panic.intNArg := by
  unfold rand.IntN
  rw [if_pos hn]

/-- Indexing within bounds returns the element. -/
theorem index_ok (xs : List String) (i : Int) (h0 : 0 ≤ i) (h1 : i < xs.length) :
    index xs i = Except.ok (xs.getD i.toNat "") := by
  unfold index
  rw [if_pos ⟨h0, h1⟩]

/-- An element read within bounds belongs to the list. -/
theorem getD_mem (xs : List String) (k : Nat) (h : k < xs.length) :
    xs.getD k "" ∈ xs := by
  rw [List.getD_eq_getElem xs "" h]
  exact List.getElem_mem h

/-- A non-empty list has positive length, as an integer. -/
theorem length_pos_int (xs : List String) (h : xs ≠ []) : (0 : Int) < xs.length := by
  have := List.length_pos.mpr h
  omega

/-- A raw value reduced by the length of a non-empty list is a valid position. -/
theorem draw_toNat_lt (r : Nat) (xs : List String) (h : xs ≠ []) :
    (((r : Int) % (xs.length : Int)).toNat) < xs.length := by
  have hpos := length_pos_int xs h
  have h1 := Int.emod_lt_of_pos (r : Int) hpos
  have h0 := Int.emod_nonneg (r : Int) (ne_of_gt hpos)
  omega

/-- On a non-empty list `createEntry` returns, and the entry it returns is
described field by field. -/
theorem createEntry_spec (id : Int) (animals : List String) (w : World)
    (hne : animals ≠ []) :
    ∃ e w1,
      createEntry id animals w = Except.ok (e, w1) ∧
      e.ID = id ∧
      e.Container = animals.getD (((nextRaw w).1 : Int) % (animals.length : Int)).toNat "" ∧
      e.Container ∈ animals ∧
      (∃ a ∈ animals, e.Msg = soundOf a) ∧
      (float32_0_01 < (rand.Float32 (nextRaw w).2).1 → e.Msg = soundOf e.Container) ∧
      (∃ r : Nat, r < 10000 ∧ e.Level = severity (r : Int)) ∧
      e.Timestamp = w.clock 0 ∧ (w1.clock = fun k => w.clock (k + 1)) ∧
      w1.file = w.file ∧ w1.buf = w.buf ∧ w1.bufErr = w.bufErr ∧
      w1.writeFails = w.writeFails ∧ w1.logs = w.logs := by
  have hpos := length_pos_int animals hne
  have hlt := draw_toNat_lt (nextRaw w).1 animals hne
  have h1 := Int.emod_lt_of_pos ((nextRaw w).1 : Int) hpos
  have h0 := Int.emod_nonneg ((nextRaw w).1 : Int) (ne_of_gt hpos)
  have hmem := getD_mem animals _ hlt
  unfold createEntry
  simp only [randIntN_ok _ _ hpos, index_ok animals _ h0 h1]
  by_cases hf : (rand.Float32 (nextRaw w).2).1 ≤ float32_0_01
  · have hlt2 := draw_toNat_lt (nextRaw (rand.Float32 (nextRaw w).2).2).1 animals hne
    have h3 := Int.emod_lt_of_pos ((nextRaw (rand.Float32 (nextRaw w).2).2).1 : Int) hpos
    have h2 := Int.emod_nonneg ((nextRaw (rand.Float32 (nextRaw w).2).2).1 : Int) (ne_of_gt hpos)
    simp only [if_pos hf, index_ok animals _ h2 h3, randIntN_ok (10000 : Int) _ (by norm_num)]
    refine ⟨_, _, rfl, rfl, rfl, hmem, ⟨_, getD_mem animals _ hlt2, rfl⟩, ?_,
      ⟨_, Nat.mod_lt _ (by norm_num), by rw [Int.natCast_mod]; rfl⟩, rfl, rfl, rfl, rfl, rfl, rfl, rfl⟩
    intro hgt
    exact absurd hf (not_le.mpr hgt)
  · simp only [if_neg hf, randIntN_ok (10000 : Int) _ (by norm_num)]
    exact ⟨_, _, rfl, rfl, rfl, hmem, ⟨_, hmem, rfl⟩, fun _ => rfl,
      ⟨_, Nat.mod_lt _ (by norm_num), by rw [Int.natCast_mod]; rfl⟩, rfl, rfl, rfl, rfl, rfl, rfl, rfl⟩

/-- On the empty list `createEntry` panics in its first call of `rand.IntN`. -/
theorem createEntry_nil (id : Int) (w : World) :
    createEntry id [] w = Except.error Panic.intNArg := by
  unfold createEntry
  simp only [List.length_nil, Nat.cast_zero, randIntN_error (0 : Int) w (le_refl 0)]

/-- The identifier read back from the JSON object of an entry. -/
theorem idOf_toJSON (e : Entry) : idOf e.toJSON = some e.ID := by
  simp [idOf, Entry.toJSON, List.lookup]

/-- Whatever the list, an entry that `createEntry` returns carries the
identifier it was called with. -/
theorem createEntry_id (id : Int) (animals : List String) (w : World) (e : Entry)
    (w1 : World) (h : createEntry id animals w = Except.ok (e, w1)) : e.ID = id := by
  by_cases hne : animals = []
  · subst hne
    rw [createEntry_nil] at h
    exact Except.noConfusion h
  · obtain ⟨e1, v1, hce, hid, -⟩ := createEntry_spec id animals w hne
    rw [hce] at h
    have h2 := Except.ok.inj h
    have h3 : e1 = e := congrArg Prod.fst h2
    rw [← h3]
    exact hid

/-- The insertions of `rangeKeys` only permute. -/
theorem foldl_insertIdx_perm (seed : Nat → Nat) (ks acc : List String) :
    List.Perm
      (ks.foldl (fun acc k => acc.insertIdx (seed acc.length % (acc.length + 1)) k) acc)
      (ks ++ acc) := by
  induction ks generalizing acc with
  | nil => simp
  | cons k ks ih =>
    simp only [List.foldl_cons]
    refine (ih _).trans ?_
    have hle : seed acc.length % (acc.length + 1) ≤ acc.length :=
      Nat.lt_succ_iff.mp (Nat.mod_lt _ (Nat.succ_pos _))
    have hp := List.perm_insertIdx k acc hle
    refine (List.Perm.append_left ks hp).trans ?_
    simp only [List.cons_append]
    exact List.perm_middle

/-- Ranging over a map visits a permutation of its keys. -/
theorem rangeKeys_perm (m : List (String × String)) (seed : Nat → Nat) :
    List.Perm (rangeKeys m seed) (m.map Prod.fst) := by
  unfold rangeKeys
  simpa using foldl_insertIdx_perm seed (m.map Prod.fst) []

/-- Inserting at the length of the first part of a list puts the element in
between the two parts. -/
theorem insertIdx_length_append (a b : List String) (k : String) :
    (a ++ b).insertIdx a.length k = a ++ k :: b := by
  induction a with
  | nil => simp
  | cons x a ih => simp [List.insertIdx_succ_cons, ih]

/-- The insertions of `rangeKeys` read the seed only below the final length. -/
theorem foldl_insertIdx_congr (s1 s2 : Nat → Nat) (ks : List String) :
    ∀ acc : List String, (∀ i, i < acc.length + ks.length → s1 i = s2 i) →
      ks.foldl (fun acc k => acc.insertIdx (s1 acc.length % (acc.length + 1)) k) acc
        = ks.foldl (fun acc k => acc.insertIdx (s2 acc.length % (acc.length + 1)) k) acc := by
  induction ks with
  | nil => intro acc _; rfl
  | cons k ks ih =>
    intro acc h
    simp only [List.foldl_cons]
    have h0 : s1 acc.length = s2 acc.length := h _ (by simp)
    rw [h0]
    apply ih
    intro i hi
    apply h
    have hle : s2 acc.length % (acc.length + 1) ≤ acc.length :=
      Nat.lt_succ_iff.mp (Nat.mod_lt _ (Nat.succ_pos _))
    rw [List.length_insertIdx _ _ hle] at hi
    simp only [List.length_cons]
    omega

/-- Every order of the keys is the order of `rangeKeys` for some seed. -/
theorem rangeKeys_surjective (m : List (String × String)) (l : List String)
    (h : List.Perm l (m.map Prod.fst)) : ∃ seed, rangeKeys m seed = l := by
  unfold rangeKeys
  generalize m.map Prod.fst = ks at h
  induction ks using List.reverseRecOn generalizing l with
  | nil =>
    exact ⟨fun _ => 0, by simp [List.perm_nil.mp h]⟩
  | append_singleton ks k ih =>
    have hk : k ∈ l := h.mem_iff.mpr (by simp)
    obtain ⟨a, b, rfl⟩ := List.append_of_mem hk
    have hab : List.Perm (a ++ b) ks := by
      have h1 : List.Perm (k :: (a ++ b)) (k :: ks) :=
        (List.perm_middle.symm.trans h).trans (List.perm_append_singleton k ks)
      exact (List.perm_cons k).mp h1
    obtain ⟨seed, hseed⟩ := ih (a ++ b) hab
    have hlen : (a ++ b).length = ks.length := hab.length_eq
    refine ⟨Function.update seed ks.length a.length, ?_⟩
    rw [List.foldl_append]
    have hcongr := foldl_insertIdx_congr (Function.update seed ks.length a.length) seed ks []
      (by
        intro i hi
        have : i ≠ ks.length := by simp at hi; omega
        simp [Function.update, this])
    simp only [List.foldl_cons, List.foldl_nil]
    rw [hcongr, hseed, hlen, Function.update_same, Nat.mod_eq_of_lt (by rw [← hlen]; simp; omega)]
    exact insertIdx_length_append a b k

/-- The list `main` builds is not empty. -/
theorem rangeKeys_animalSounds_ne_nil (seed : Nat → Nat) :
    rangeKeys animalSounds seed ≠ [] := by
  intro h
  have hp := (rangeKeys_perm animalSounds seed).length_eq
  rw [h] at hp
  simp [animalSounds] at hp

/-- The list `main` builds holds keys of the table only. -/
theorem rangeKeys_animalSounds_mem (seed : Nat → Nat) (a : String)
    (h : a ∈ rangeKeys animalSounds seed) : a ∈ animalKeys :=
  (rangeKeys_perm animalSounds seed).mem_iff.mp h

/-- The loop runs no iteration when the count is zero or negative. -/
theorem generate_nonpos (numEntries : Int) (animals : List String) (w : World)
    (h : numEntries ≤ 0) : generate numEntries animals w = Except.ok w := by
  unfold generate
  rw [Int.toNat_eq_zero.mpr h]
  rfl

/-- An entry that `createEntry` returns, described field by field; the list it
was drawn from is not empty. -/
theorem createEntry_ok_spec (id : Int) (animals : List String) (w : World) (e : Entry)
    (w1 : World) (h : createEntry id animals w = Except.ok (e, w1)) :
    animals ≠ [] ∧
    e.Container = animals.getD (((nextRaw w).1 : Int) % (animals.length : Int)).toNat "" ∧
    e.Container ∈ animals ∧
    (∃ a ∈ animals, e.Msg = soundOf a) ∧
    (float32_0_01 < (rand.Float32 (nextRaw w).2).1 → e.Msg = soundOf e.Container) ∧
    (∃ r : Nat, r < 10000 ∧ e.Level = severity (r : Int)) := by
  by_cases hne : animals = []
  · subst hne
    rw [createEntry_nil] at h
    exact Except.noConfusion h
  · obtain ⟨e1, v1, hce, -, h1, h2, h3, h4, h5, -⟩ := createEntry_spec id animals w hne
    rw [hce] at h
    have h6 : e1 = e := congrArg Prod.fst (Except.ok.inj h)
    rw [← h6]
    exact ⟨hne, h1, h2, h3, h4, h5⟩


/-- What `createEntry` leaves untouched: it reads the clock once and does not
touch the file, the writer or the log. -/
theorem createEntry_frame (id : Int) (animals : List String) (w : World) (e : Entry)
    (w1 : World) (h : createEntry id animals w = Except.ok (e, w1)) :
    e.Timestamp = w.clock 0 ∧ (w1.clock = fun k => w.clock (k + 1)) ∧
    w1.file = w.file ∧ w1.buf = w.buf ∧ w1.bufErr = w.bufErr ∧
    w1.writeFails = w.writeFails ∧ w1.logs = w.logs := by
  by_cases hne : animals = []
  · subst hne
    rw [createEntry_nil] at h
    exact Except.noConfusion h
  · obtain ⟨e1, v1, hce, -, -, -, -, -, -, h1, h2, h3, h4, h5, h6, h7⟩ :=
      createEntry_spec id animals w hne
    rw [hce] at h
    have h8 : e1 = e := congrArg Prod.fst (Except.ok.inj h)
    have h9 : v1 = w1 := congrArg Prod.snd (Except.ok.inj h)
    rw [← h8, ← h9]
    exact ⟨h1, h2, h3, h4, h5, h6, h7⟩

/-- A call of `Encode` that returns no error has marshalled the entry and
handed the whole line to the writer. -/
theorem encode_spec (e : Entry) (w w2 : World) (f : List Nat) (hf : w.file = some f)
    (h : Encode e w = Except.ok w2) :
    ∃ line f2, marshalLine e = some line ∧ w2.file = some f2 ∧
      f2 ++ w2.buf = f ++ (w.buf ++ line) ∧ w2.bufErr = false ∧
      w2.clock = w.clock ∧ w2.logs = w.logs ∧ w2.raw = w.raw := by
  unfold Encode at h
  cases hm : marshalLine e with
  | none =>
    rw [hm] at h
    exact Except.noConfusion h
  | some line =>
    rw [hm] at h
    obtain ⟨f2, i1, i2, i3, -, -, i6, i7⟩ := write_spec line w f hf
    by_cases hw : (bufio.Write line w).1 = true
    · simp only [hw, if_true] at h
      exact Except.noConfusion h
    · simp only [hw, Bool.false_eq_true, if_false] at h
      have h2 := Except.ok.inj h
      rw [← h2]
      obtain ⟨j1, j2⟩ := i7 (by simpa using hw)
      exact ⟨line, f2, rfl, i1, j2, j1, i3, i6, i2⟩

/-- A call of `Encode` on an entry that marshals, when the environment lets
every write through. -/
theorem encode_ok (e : Entry) (w : World) (line : List Nat) (hm : marshalLine e = some line)
    (he : w.bufErr = false) (hn : ∀ k, w.writeFails k = none) :
    ∃ w2, Encode e w = Except.ok w2 ∧ w2.bufErr = false ∧ ∀ k, w2.writeFails k = none := by
  obtain ⟨h1, h2, h3⟩ := write_ok line w he hn
  refine ⟨(bufio.Write line w).2, ?_, h2, h3⟩
  unfold Encode
  rw [hm]
  simp only [h1, Bool.false_eq_true, if_false]

/-- The progress record of the loop touches the log only. -/
theorem progress_frame (numEntries i : Int) (w : World) :
    (if i % 1000000 = 0 then slog.Info (LogLine.logging i (numEntries - i)) w else w).file
      = w.file ∧
    (if i % 1000000 = 0 then slog.Info (LogLine.logging i (numEntries - i)) w else w).buf
      = w.buf ∧
    (if i % 1000000 = 0 then slog.Info (LogLine.logging i (numEntries - i)) w else w).bufErr
      = w.bufErr ∧
    (if i % 1000000 = 0 then slog.Info (LogLine.logging i (numEntries - i)) w else w).writeFails
      = w.writeFails ∧
    (if i % 1000000 = 0 then slog.Info (LogLine.logging i (numEntries - i)) w else w).clock
      = w.clock := by
  split_ifs <;> exact ⟨rfl, rfl, rfl, rfl, rfl⟩

/-- One iteration that returns: it has created an entry with the index as
identifier and handed its line to the writer. -/
theorem loopBody_spec (numEntries : Int) (animals : List String) (i : Int) (w w2 : World)
    (f : List Nat) (hf : w.file = some f)
    (h : loopBody numEntries animals i w = Except.ok w2) :
    ∃ w0 e w1 line f2,
      createEntry i animals w0 = Except.ok (e, w1) ∧ e.ID = i ∧
      marshalLine e = some line ∧ w2.file = some f2 ∧
      f2 ++ w2.buf = f ++ (w.buf ++ line) := by
  obtain ⟨p1, p2, -, -, -⟩ := progress_frame numEntries i w
  unfold loopBody at h
  cases hce : createEntry i animals
      (if i % 1000000 = 0 then slog.Info (LogLine.logging i (numEntries - i)) w else w) with
  | error p =>
    simp only [hce] at h
    exact Except.noConfusion h
  | ok r =>
    obtain ⟨e, w1⟩ := r
    simp only [hce] at h
    obtain ⟨-, -, c3, c4, -, -, -⟩ := createEntry_frame i animals _ e w1 hce
    cases hen : Encode e w1 with
    | error q =>
      simp only [hen] at h
      exact Except.noConfusion h
    | ok w3 =>
      simp only [hen] at h
      have h3 : w3 = w2 := Except.ok.inj h
      subst h3
      obtain ⟨line, f2, e1, e2, e3, -⟩ :=
        encode_spec e w1 w3 f (by rw [c3, p1]; exact hf) hen
      refine ⟨_, e, w1, line, f2, hce, createEntry_id i animals _ e w1 hce, e1, e2, ?_⟩
      rw [e3, c4, p2]

/-- One iteration on a non-empty list, when the timestamp marshals and the
environment lets every write through: it returns. -/
theorem loopBody_ok (numEntries : Int) (animals : List String) (i : Int) (w : World)
    (f : List Nat) (hne : animals ≠ []) (hf : w.file = some f) (he : w.bufErr = false)
    (hn : ∀ k, w.writeFails k = none) (ht : (jsonTime (w.clock 0)).isSome = true) :
    ∃ w2 f2, loopBody numEntries animals i w = Except.ok w2 ∧ w2.file = some f2 ∧
      w2.bufErr = false ∧ (∀ k, w2.writeFails k = none) ∧
      (w2.clock = fun k => w.clock (k + 1)) := by
  obtain ⟨p1, -, p3, p4, p5⟩ := progress_frame numEntries i w
  obtain ⟨e, w1, hce, -, -, -, -, -, -, c1, c2, c3, -, c5, c6, -⟩ :=
    createEntry_spec i animals
      (if i % 1000000 = 0 then slog.Info (LogLine.logging i (numEntries - i)) w else w) hne
  obtain ⟨bs, hbs⟩ := Option.isSome_iff_exists.mp ht
  obtain ⟨line, hline⟩ := marshalLine_isSome e bs (by rw [c1, p5]; exact hbs)
  obtain ⟨w2, h1, h2, h3⟩ := encode_ok e w1 line hline (by rw [c5, p3]; exact he)
    (by rw [c6, p4]; exact hn)
  obtain ⟨-, f2, -, e2, -, -, e5, -⟩ :=
    encode_spec e w1 w2 f (by rw [c3, p1]; exact hf) h1
  refine ⟨w2, f2, ?_, e2, h2, h3, ?_⟩
  · unfold loopBody
    simp only [hce, h1]
  · rw [e5, c2, p5]

/-- The lines of a list of lines hold one newline byte each. -/
theorem count_flatten_lines (lines : List (List Nat))
    (h : ∀ l ∈ lines, l.count 10 = 1) : lines.flatten.count 10 = lines.length := by
  induction lines with
  | nil => rfl
  | cons l ls ih =>
    rw [List.flatten_cons, List.count_append, h l (List.mem_cons_self _ _),
      ih (fun x hx => h x (List.mem_cons_of_mem _ hx)), List.length_cons]
    omega

/-- The loop, when it returns: every remaining index has contributed the line
of an entry created with that index as identifier, in order. -/
theorem rangeLoop_spec (numEntries : Int) (animals : List String) :
    ∀ (k : Nat) (i : Int) (w w2 : World) (f : List Nat),
      w.file = some f → rangeLoop numEntries animals k i w = Except.ok w2 →
      ∃ (es : List Entry) (f2 : List Nat),
        es.length = k ∧
        (∀ j, j < k → ∃ w0 e w1,
          createEntry (i + (j : Int)) animals w0 = Except.ok (e, w1) ∧
          e.ID = i + (j : Int) ∧ es[j]? = some e) ∧
        (es.filterMap marshalLine).length = k ∧
        w2.file = some f2 ∧
        f2 ++ w2.buf = f ++ (w.buf ++ (es.filterMap marshalLine).flatten) := by
  intro k
  induction k with
  | zero =>
    intro i w w2 f hf h
    have h2 : w = w2 := Except.ok.inj h
    subst h2
    refine ⟨[], f, rfl, ?_, rfl, hf, by simp⟩
    intro j hj
    omega
  | succ k ih =>
    intro i w w2 f hf h
    rw [rangeLoop] at h
    cases hb : loopBody numEntries animals i w with
    | error q =>
      simp only [hb] at h
      exact Except.noConfusion h
    | ok w1 =>
      simp only [hb] at h
      obtain ⟨w0, e, v1, line, f1, b1, b2, b3, b4, b5⟩ :=
        loopBody_spec numEntries animals i w w1 f hf hb
      obtain ⟨es, f2, r1, r2, r3, r4, r5⟩ := ih (i + 1) w1 w2 f1 b4 h
      refine ⟨e :: es, f2, by simp [r1], ?_, ?_, r4, ?_⟩
      · intro j hj
        cases j with
        | zero =>
          refine ⟨w0, e, v1, ?_, ?_, List.getElem?_cons_zero⟩
          · simpa using b1
          · simpa using b2
        | succ j =>
          obtain ⟨v0, e1, v2, h1, h2, h3⟩ := r2 j (Nat.lt_of_succ_lt_succ hj)
          have hidx : i + ((j + 1 : Nat) : Int) = i + 1 + (j : Int) := by push_cast; ring
          refine ⟨v0, e1, v2, ?_, ?_, ?_⟩
          · rw [hidx]; exact h1
          · rw [hidx]; exact h2
          · simpa using h3
      · rw [List.filterMap_cons_some b3, List.length_cons, r3]
      · rw [List.filterMap_cons_some b3, List.flatten_cons, r5, ← List.append_assoc, b5]
        simp only [List.append_assoc]

/-- The loop on a non-empty list, when the timestamps marshal and the
environment lets every write through: it returns. -/
theorem rangeLoop_ok (numEntries : Int) (animals : List String) (hne : animals ≠ []) :
    ∀ (k : Nat) (i : Int) (w : World) (f : List Nat),
      w.file = some f → w.bufErr = false → (∀ j, w.writeFails j = none) →
      (∀ j, j < k → (jsonTime (w.clock j)).isSome = true) →
      ∃ w2, rangeLoop numEntries animals k i w = Except.ok w2 ∧ w2.bufErr = false ∧
        ∀ j, w2.writeFails j = none := by
  intro k
  induction k with
  | zero =>
    intro i w f _ he hn _
    exact ⟨w, rfl, he, hn⟩
  | succ k ih =>
    intro i w f hf he hn ht
    obtain ⟨w1, f1, b1, b2, b3, b4, b5⟩ :=
      loopBody_ok numEntries animals i w f hne hf he hn (ht 0 (Nat.succ_pos k))
    obtain ⟨w2, r1, r2, r3⟩ := ih (i + 1) w1 f1 b2 b3 b4
      (by
        intro j hj
        rw [b5]
        exact ht (j + 1) (Nat.succ_lt_succ hj))
    refine ⟨w2, ?_, r2, r3⟩
    rw [rangeLoop]
    simp only [b1, r1]

/-- The identifiers of a list of entries numbered in order. -/
theorem ids_of_entries (N : Nat) (es : List Entry) (hlen : es.length = N)
    (h : ∀ j, j < N → ∃ e : Entry, e.ID = (j : Int) ∧ es[j]? = some e) :
    es.map (fun e => idOf e.toJSON) = (List.range N).map (fun k : Nat => some (k : Int)) := by
  apply List.ext_getElem?
  intro j
  rw [List.getElem?_map, List.getElem?_map]
  by_cases hj : j < N
  · obtain ⟨e, hid, hrec⟩ := h j hj
    rw [hrec, List.getElem?_range hj, Option.map_some', Option.map_some', idOf_toJSON, hid]
  · have h1 : es.length ≤ j := by omega
    have h2 : (List.range N).length ≤ j := by rw [List.length_range]; omega
    rw [List.getElem?_eq_none h1, List.getElem?_eq_none h2]
    rfl

/-- Every line of a list of marshalled entries is the line of one of them. -/
theorem mem_filterMap_marshalLine (es : List Entry) (l : List Nat)
    (h : l ∈ es.filterMap marshalLine) : ∃ e, e ∈ es ∧ marshalLine e = some l := by
  obtain ⟨e, he, hl⟩ := List.mem_filterMap.mp h
  exact ⟨e, he, hl⟩

/-- The loop started at index `0`, when it returns. -/
theorem generate_spec (N : Nat) (animals : List String) (w w2 : World) (f : List Nat)
    (hf : w.file = some f) (h : generate (N : Int) animals w = Except.ok w2) :
    ∃ es : List Entry,
      es.map (fun e => idOf e.toJSON) = (List.range N).map (fun k : Nat => some (k : Int)) ∧
      (∀ k, k < N → ∃ w0 e w1,
        createEntry (k : Int) animals w0 = Except.ok (e, w1) ∧ es[k]? = some e) ∧
      (es.filterMap marshalLine).length = N ∧
      (∃ f2, w2.file = some f2) ∧
      stream w2 = stream w ++ (es.filterMap marshalLine).flatten := by
  unfold generate at h
  rw [Int.toNat_ofNat] at h
  obtain ⟨es, f2, r1, r2, r3, r4, r5⟩ := rangeLoop_spec (N : Int) animals N 0 w w2 f hf h
  refine ⟨es, ?_, ?_, r3, ⟨f2, r4⟩, ?_⟩
  · apply ids_of_entries N es r1
    intro j hj
    obtain ⟨-, e, -, -, h2, h3⟩ := r2 j hj
    exact ⟨e, by simpa using h2, h3⟩
  · intro j hj
    obtain ⟨w0, e, w1, h1, -, h3⟩ := r2 j hj
    exact ⟨w0, e, w1, by simpa using h1, h3⟩
  · unfold stream
    rw [r4, hf]
    simp only [Option.getD_some, List.append_assoc]
    rw [r5]

/-- The loop started at index `0` on a non-empty list, when the timestamps
marshal and the environment lets every write through: it returns. -/
theorem generate_ok (N : Nat) (animals : List String) (w : World) (f : List Nat)
    (hne : animals ≠ []) (hf : w.file = some f) (he : w.bufErr = false)
    (hn : ∀ j, w.writeFails j = none)
    (ht : ∀ j, j < N → (jsonTime (w.clock j)).isSome = true) :
    ∃ w2, generate (N : Int) animals w = Except.ok w2 ∧ w2.bufErr = false ∧
      ∀ j, w2.writeFails j = none := by
  unfold generate
  rw [Int.toNat_ofNat]
  exact rangeLoop_ok (N : Int) animals hne N 0 w f hf he hn ht

/-- When the argument is the decimal form of `N >= 0`, the file can be created,
the timestamps marshal and no write to the file fails, `main` returns and
leaves in the file the `N` lines of entries with the identifiers `0` to
`N - 1`, and nothing in the buffer. -/
theorem main_spec (args : List String) (arg : String) (w : World) (N : Nat)
    (hargs : args[1]? = some arg) (hatoi : strconv.Atoi arg = Except.ok (N : Int))
    (hcreate : w.createFails = false) (hn : ∀ j, w.writeFails j = none)
    (ht : ∀ j, j < N → (jsonTime (w.clock j)).isSome = true) :
    ∃ (w2 : World) (es : List Entry),
      main args w = Except.ok w2 ∧
      es.map (fun e => idOf e.toJSON) = (List.range N).map (fun k : Nat => some (k : Int)) ∧
      (es.filterMap marshalLine).length = N ∧
      w2.file = some (es.filterMap marshalLine).flatten ∧ w2.buf = [] := by
  have hc : os.Create (slog.Info (LogLine.creatingLog (N : Int)) w)
      = Except.ok { slog.Info (LogLine.creatingLog (N : Int)) w with file := some [] } := by
    unfold os.Create
    simp [slog.Info, hcreate]
  obtain ⟨w2, g1, g2, g3⟩ :=
    generate_ok N (rangeKeys animalSounds (slog.Info (LogLine.creatingLog (N : Int)) w).mapSeed)
      (bufio.NewWriter { slog.Info (LogLine.creatingLog (N : Int)) w with file := some [] }) []
      (rangeKeys_animalSounds_ne_nil _) rfl rfl hn ht
  obtain ⟨es, s1, -, s3, ⟨f2, s4⟩, s5⟩ := generate_spec N _ _ w2 [] rfl g1
  obtain ⟨-, -, k3, -⟩ := flush_ok (slog.Info LogLine.done w2) g2 g3
  obtain ⟨f3, l1, -, -, -, -, -, l7⟩ := flush_spec (slog.Info LogLine.done w2) f2 s4
  obtain ⟨-, k2, -, -⟩ := flush_ok (slog.Info LogLine.done w2) g2 g3
  refine ⟨deferredCalls (slog.Info LogLine.done w2), es, ?_, s1, s3, ?_, k3⟩
  · unfold main
    simp only [hargs, hatoi, hc, g1]
  · have h1 := l7 k2
    rw [k3, List.append_nil] at h1
    show (bufio.Flush (slog.Info LogLine.done w2)).2.file = _
    rw [l1, h1]
    have h2 : stream w2 = f2 ++ w2.buf := by unfold stream; rw [s4]; rfl
    have h3 : f2 ++ (slog.Info LogLine.done w2).buf = stream w2 := h2.symm
    rw [h3, s5]
    rfl

/-! ## The claims -/

/-- C3: the switch of `createEntry` splits the 10000 draws `0..9999` with the
stated weights: 1 draw gives FATAL, 10 give ERROR, 129 give WARN, 360 give
INFO and the remaining 9500 give DEBUG; and the level of every entry that
`createEntry` returns is the switch applied to one of these draws. -/
theorem severity_weights :
    ((Finset.range 10000).filter (fun r : Nat => severity (r : Int) = "FATAL")).card = 1 ∧
    ((Finset.range 10000).filter (fun r : Nat => severity (r : Int) = "ERROR")).card = 10 ∧
    ((Finset.range 10000).filter (fun r : Nat => severity (r : Int) = "WARN")).card = 129 ∧
    ((Finset.range 10000).filter (fun r : Nat => severity (r : Int) = "INFO")).card = 360 ∧
    ((Finset.range 10000).filter (fun r : Nat => severity (r : Int) = "DEBUG")).card = 9500 ∧
    ∀ (id : Int) (animals : List String) (w : World),
      match createEntry id animals w with
      | Except.ok (e, _) => ∃ r : Nat, r < 10000 ∧ e.Level = severity (r : Int)
      | Except.error _ => animals = [] := by
  have hF : (Finset.range 10000).filter (fun r : Nat => severity (r : Int) = "FATAL")
      = Finset.Ico 0 1 := by
    ext r
    simp only [Finset.mem_filter, Finset.mem_range, Finset.mem_Ico, severity_eq_fatal_iff]
    omega
  have hE : (Finset.range 10000).filter (fun r : Nat => severity (r : Int) = "ERROR")
      = Finset.Ico 1 11 := by
    ext r
    simp only [Finset.mem_filter, Finset.mem_range, Finset.mem_Ico, severity_eq_error_iff]
    omega
  have hW : (Finset.range 10000).filter (fun r : Nat => severity (r : Int) = "WARN")
      = Finset.Ico 11 140 := by
    ext r
    simp only [Finset.mem_filter, Finset.mem_range, Finset.mem_Ico, severity_eq_warn_iff]
    omega
  have hI : (Finset.range 10000).filter (fun r : Nat => severity (r : Int) = "INFO")
      = Finset.Ico 140 500 := by
    ext r
    simp only [Finset.mem_filter, Finset.mem_range, Finset.mem_Ico, severity_eq_info_iff]
    omega
  have hD : (Finset.range 10000).filter (fun r : Nat => severity (r : Int) = "DEBUG")
      = Finset.Ico 500 10000 := by
    ext r
    simp only [Finset.mem_filter, Finset.mem_range, Finset.mem_Ico, severity_eq_debug_iff]
    omega
  rw [hF, hE, hW, hI, hD]
  refine ⟨by simp, by simp, by simp, by simp, by simp, ?_⟩
  intro id animals w
  by_cases hne : animals = []
  · subst hne
    rw [createEntry_nil]
  · obtain ⟨e, w1, hce, -, -, -, -, -, h5, -⟩ := createEntry_spec id animals w hne
    rw [hce]
    exact h5

/-- C7: whatever the identifier, the animal list and the draws, the level of the
entry `createEntry` returns is one of DEBUG, INFO, WARN, ERROR, FATAL (and it
does return on every non-empty list); the switch itself yields one of the five
on every integer, also outside `0..9999`. -/
theorem createEntry_level_among_five (id : Int) (animals : List String) (w : World) :
    (animals ≠ [] → ∃ e w1, createEntry id animals w = Except.ok (e, w1)) ∧
    (∀ e w1, createEntry id animals w = Except.ok (e, w1) →
      e.Level ∈ ["DEBUG", "INFO", "WARN", "ERROR", "FATAL"]) ∧
    (∀ randomNum : Int, severity randomNum ∈ ["DEBUG", "INFO", "WARN", "ERROR", "FATAL"]) := by
  refine ⟨?_, ?_, severity_mem_levels⟩
  · intro hne
    obtain ⟨e, w1, hce, -⟩ := createEntry_spec id animals w hne
    exact ⟨e, w1, hce⟩
  · intro e w1 h
    obtain ⟨-, -, -, -, -, r, -, hr⟩ := createEntry_ok_spec id animals w e w1 h
    rw [hr]
    exact severity_mem_levels _

/-- Witness of C7 on the list `["cow"]` in `calmWorld`. -/
theorem createEntry_level_among_five_witness :
    ∃ e w1, createEntry 7 ["cow"] calmWorld = Except.ok (e, w1) ∧
      e.Level ∈ ["DEBUG", "INFO", "WARN", "ERROR", "FATAL"] := by
  obtain ⟨e, w1, h⟩ := (createEntry_level_among_five 7 ["cow"] calmWorld).1 (by decide)
  exact ⟨e, w1, h, (createEntry_level_among_five 7 ["cow"] calmWorld).2.1 e w1 h⟩

/-- C9: on a non-empty list `createEntry` returns an entry; when the
substitution branch is not taken (the test `rand.Float32() <= 0.01` fails, as
it does for every float draw greater than 0.01) the message of the entry is the
table sound of its container, and in every case the message is the table sound
of some element of the animal list. -/
theorem createEntry_msg_canonical (id : Int) (animals : List String) (w : World) :
    (animals ≠ [] → ∃ e w1, createEntry id animals w = Except.ok (e, w1)) ∧
    ∀ e w1, createEntry id animals w = Except.ok (e, w1) →
      (¬ (rand.Float32 (nextRaw w).2).1 ≤ float32_0_01 → e.Msg = soundOf e.Container) ∧
      ((1 : ℚ) / 100 < (rand.Float32 (nextRaw w).2).1 → e.Msg = soundOf e.Container) ∧
      ∃ a ∈ animals, e.Msg = soundOf a := by
  refine ⟨?_, ?_⟩
  · intro hne
    obtain ⟨e, w1, hce, -⟩ := createEntry_spec id animals w hne
    exact ⟨e, w1, hce⟩
  · intro e w1 h
    obtain ⟨-, -, -, h3, h4, -⟩ := createEntry_ok_spec id animals w e w1 h
    refine ⟨fun hn => h4 (not_le.mp hn), fun hgt => h4 (lt_trans ?_ hgt), h3⟩
    norm_num [float32_0_01]

/-- Witness of C9 in `midWorld`, where the float draw is one half. -/
theorem createEntry_msg_canonical_witness :
    (1 : ℚ) / 100 < (rand.Float32 (nextRaw midWorld).2).1 ∧
    ¬ (rand.Float32 (nextRaw midWorld).2).1 ≤ float32_0_01 ∧
    ∃ e w1, createEntry 3 ["cow", "pig"] midWorld = Except.ok (e, w1) ∧
      e.Msg = soundOf e.Container ∧ ∃ a ∈ ["cow", "pig"], e.Msg = soundOf a := by
  have hf : (1 : ℚ) / 100 < (rand.Float32 (nextRaw midWorld).2).1 := by
    norm_num [rand.Float32, nextRaw, midWorld, calmWorld]
  have hn : ¬ (rand.Float32 (nextRaw midWorld).2).1 ≤ float32_0_01 := by
    norm_num [float32_0_01, rand.Float32, nextRaw, midWorld, calmWorld]
  obtain ⟨e, w1, h⟩ := (createEntry_msg_canonical 3 ["cow", "pig"] midWorld).1 (by decide)
  have h2 := (createEntry_msg_canonical 3 ["cow", "pig"] midWorld).2 e w1 h
  exact ⟨hf, hn, e, w1, h, h2.1 hn, h2.2.2⟩

/-- C6: on the list `main` builds from `animalSounds`, and on every non-empty
list of keys of the table, `createEntry` returns an entry; the index drawn for
the container lies within the bounds of the list, and the container is one of
cow, pig, dog, cat, bird, horse, goat, mouse, sheep. -/
theorem createEntry_container_in_animal_set (id : Int) (w : World) :
    (∀ seed : Nat → Nat,
      rangeKeys animalSounds seed ≠ [] ∧
      ∀ a ∈ rangeKeys animalSounds seed, a ∈ animalSounds.map Prod.fst) ∧
    ∀ animals : List String, animals ≠ [] →
      (∀ a ∈ animals, a ∈ animalSounds.map Prod.fst) →
      ∃ e w1 animalIndex w0,
        rand.IntN animals.length w = Except.ok (animalIndex, w0) ∧
        0 ≤ animalIndex ∧ animalIndex < animals.length ∧
        index animals animalIndex = Except.ok e.Container ∧
        createEntry id animals w = Except.ok (e, w1) ∧
        e.Container ∈
          ["cow", "pig", "dog", "cat", "bird", "horse", "goat", "mouse", "sheep"] := by
  refine ⟨fun seed => ⟨rangeKeys_animalSounds_ne_nil seed,
    fun a ha => rangeKeys_animalSounds_mem seed a ha⟩, ?_⟩
  intro animals hne hkeys
  obtain ⟨e, w1, hce, -, hc, hmem, -⟩ := createEntry_spec id animals w hne
  have hpos := length_pos_int animals hne
  have h1 := Int.emod_lt_of_pos ((nextRaw w).1 : Int) hpos
  have h0 := Int.emod_nonneg ((nextRaw w).1 : Int) (ne_of_gt hpos)
  refine ⟨e, w1, _, _, randIntN_ok _ w hpos, h0, h1, ?_, hce, ?_⟩
  · rw [index_ok animals _ h0 h1, hc]
  · exact hkeys _ hmem

/-- Witness of C6 on the list `main` builds in `calmWorld`. -/
theorem createEntry_container_in_animal_set_witness :
    ∃ e w1, createEntry 0 (rangeKeys animalSounds calmWorld.mapSeed) calmWorld
        = Except.ok (e, w1) ∧
      e.Container ∈
        ["cow", "pig", "dog", "cat", "bird", "horse", "goat", "mouse", "sheep"] := by
  obtain ⟨hbuilt, hall⟩ := createEntry_container_in_animal_set 0 calmWorld
  obtain ⟨e, w1, -, -, -, -, -, -, h1, h2⟩ :=
    hall (rangeKeys animalSounds calmWorld.mapSeed) (hbuilt calmWorld.mapSeed).1
      (hbuilt calmWorld.mapSeed).2
  exact ⟨e, w1, h1, h2⟩

/-- C4: the substitution may pick the container itself.  On the nine animals in
table order, with every draw equal to `0`, the branch is taken (the float draw
`0` is at most the threshold), the second index drawn is `0` like the first,
and the message of the entry is `moo`, the sound of its own container `cow`. -/
theorem createEntry_substitutes_own_sound :
    (rand.Float32 (nextRaw calmWorld).2).1 ≤ float32_0_01 ∧
    (∃ w0, rand.IntN 9 calmWorld = Except.ok (0, w0)) ∧
    (∃ w2, rand.IntN 9 (rand.Float32 (nextRaw calmWorld).2).2 = Except.ok (0, w2)) ∧
    ∃ e w1,
      createEntry 0 ["cow", "pig", "dog", "cat", "bird", "horse", "goat", "mouse", "sheep"]
        calmWorld = Except.ok (e, w1) ∧
      e.Container = "cow" ∧ e.Msg = "moo" ∧ e.Msg = soundOf e.Container := by
  have hf : (rand.Float32 (nextRaw calmWorld).2).1 ≤ float32_0_01 := by
    norm_num [float32_0_01, rand.Float32, nextRaw, calmWorld]
  refine ⟨hf, ⟨_, rfl⟩, ⟨_, rfl⟩, ?_⟩
  have hne : ["cow", "pig", "dog", "cat", "bird", "horse", "goat", "mouse", "sheep"]
      ≠ ([] : List String) := by decide
  unfold createEntry
  simp only [randIntN_ok _ _ (length_pos_int _ hne)]
  simp only [if_pos hf, randIntN_ok (10000 : Int) _ (by norm_num)]
  refine ⟨_, _, rfl, ?_, ?_, ?_⟩ <;> rfl

/-- C1, as stated, fails when a write fails.  On a full disk (every write to
the file fails without writing a byte) the command line `log-maker 40`, with
every draw `0`, fills the 4096-byte buffer with the first 39 lines (4085 bytes)
and 11 bytes of the fortieth, whose `Encode` then flushes, gets the write error
and makes `main` panic: the file is left empty, so the identifiers written are
not `0` to `39`. -/
theorem generate_ids_counterexample :
    panicOf (main ["log-maker", "40"] fullDiskWorld) = some Panic.encodeError ∧
    (worldOf (main ["log-maker", "40"] fullDiskWorld)).file = some [] ∧
    (worldOf (main ["log-maker", "40"] fullDiskWorld)).buf.length = 4096 ∧
    (worldOf (main ["log-maker", "40"] fullDiskWorld)).logs
      = [LogLine.creatingLog 40, LogLine.logging 0 40] := by
  decide!

/-- C1, amended: for every count `N >= 0`, every animal list and every sequence
of draws, whenever the generation loop runs to its end without a panic (as it
does on every non-empty list when the timestamps marshal and no write to the
file fails) it has handed to the writer, in order, the lines of `N` entries
whose identifiers are `0, 1, ..., N - 1`; entry `k` was returned by
`createEntry` called with identifier `k`; and `createEntry` copies its
identifier into the field `ID`. -/
theorem generate_ids_in_order (N : Nat) (animals : List String) (w : World)
    (f : List Nat) (hf : w.file = some f) :
    (∀ w2, generate (N : Int) animals w = Except.ok w2 →
      ∃ es : List Entry,
        es.map (fun e => idOf e.toJSON)
          = (List.range N).map (fun k : Nat => some (k : Int)) ∧
        (∀ k, k < N → ∃ w0 e w1,
          createEntry (k : Int) animals w0 = Except.ok (e, w1) ∧ es[k]? = some e) ∧
        (es.filterMap marshalLine).length = N ∧
        stream w2 = stream w ++ (es.filterMap marshalLine).flatten) ∧
    (animals ≠ [] → w.bufErr = false → (∀ j, w.writeFails j = none) →
      (∀ j, j < N → (jsonTime (w.clock j)).isSome = true) →
      ∃ w2, generate (N : Int) animals w = Except.ok w2) ∧
    ∀ (id : Int) (l : List String) (w0 : World) (e : Entry) (w1 : World),
      createEntry id l w0 = Except.ok (e, w1) → e.ID = id := by
  refine ⟨?_, ?_, createEntry_id⟩
  · intro w2 h
    obtain ⟨es, s1, s2, s3, -, s5⟩ := generate_spec N animals w w2 f hf h
    exact ⟨es, s1, s2, s3, s5⟩
  · intro hne he hn ht
    obtain ⟨w2, h, -⟩ := generate_ok N animals w f hne hf he hn ht
    exact ⟨w2, h⟩

/-- Witness of the amended C1: three entries on a two-animal list. -/
theorem generate_ids_in_order_witness :
    ∃ (w2 : World) (es : List Entry),
      generate ((3 : Nat) : Int) ["cow", "pig"] openWorld = Except.ok w2 ∧
      es.map (fun e => idOf e.toJSON)
        = (List.range 3).map (fun k : Nat => some (k : Int)) ∧
      (es.filterMap marshalLine).length = 3 ∧
      stream w2 = stream openWorld ++ (es.filterMap marshalLine).flatten := by
  obtain ⟨h1, h2, -⟩ := generate_ids_in_order 3 ["cow", "pig"] openWorld [] rfl
  obtain ⟨w2, h⟩ := h2 (by decide) rfl (fun _ => rfl) (fun _ _ => epoch_marshals)
  obtain ⟨es, s1, -, s3, s4⟩ := h1 w2 h
  exact ⟨w2, es, h, s1, s3, s4⟩

/-- C2: for every count `N >= 0`, when the timestamps marshal and no write to
the file fails, the loop of `main` (on the list `main` builds) runs to its end
and hands exactly `N` lines to the writer, each the line of an entry and each
with its single newline at its end; for `N = 0` it appends nothing; and `main`
as a whole, when its argument reads `N` and the file can be created, returns
with a file that holds exactly these `N` lines. -/
theorem generate_appends_exactly (N : Nat) (w : World) :
    (∀ (seed : Nat → Nat) (f : List Nat), w.file = some f → w.bufErr = false →
      (∀ j, w.writeFails j = none) →
      (∀ j, j < N → (jsonTime (w.clock j)).isSome = true) →
      ∃ (w2 : World) (lines : List (List Nat)),
        generate (N : Int) (rangeKeys animalSounds seed) w = Except.ok w2 ∧
        lines.length = N ∧ (∀ l ∈ lines, ∃ e, marshalLine e = some l) ∧
        stream w2 = stream w ++ lines.flatten ∧ lines.flatten.count 10 = N) ∧
    (∀ animals : List String, generate 0 animals w = Except.ok w) ∧
    (∀ (args : List String) (arg : String), args[1]? = some arg →
      strconv.Atoi arg = Except.ok (N : Int) → w.createFails = false →
      (∀ j, w.writeFails j = none) →
      (∀ j, j < N → (jsonTime (w.clock j)).isSome = true) →
      ∃ (w2 : World) (lines : List (List Nat)),
        main args w = Except.ok w2 ∧
        lines.length = N ∧ (∀ l ∈ lines, ∃ e, marshalLine e = some l) ∧
        w2.file = some lines.flatten ∧ w2.buf = [] ∧ lines.flatten.count 10 = N) := by
  have hcount : ∀ es : List Entry, (es.filterMap marshalLine).flatten.count 10
      = (es.filterMap marshalLine).length := by
    intro es
    apply count_flatten_lines
    intro l hl
    obtain ⟨e, -, he⟩ := mem_filterMap_marshalLine es l hl
    exact marshalLine_count e l he
  have hmem : ∀ (es : List Entry) (l : List Nat), l ∈ es.filterMap marshalLine →
      ∃ e, marshalLine e = some l := by
    intro es l hl
    obtain ⟨e, -, he⟩ := mem_filterMap_marshalLine es l hl
    exact ⟨e, he⟩
  refine ⟨?_, fun animals => generate_nonpos 0 animals w (le_refl 0), ?_⟩
  · intro seed f hf he hn ht
    obtain ⟨w2, h, -⟩ := generate_ok N (rangeKeys animalSounds seed) w f
      (rangeKeys_animalSounds_ne_nil seed) hf he hn ht
    obtain ⟨es, -, -, s3, -, s5⟩ := generate_spec N _ w w2 f hf h
    exact ⟨w2, es.filterMap marshalLine, h, s3, hmem es, s5, by rw [hcount, s3]⟩
  · intro args arg hargs hatoi hcreate hn ht
    obtain ⟨w2, es, h, -, s3, s4, s5⟩ := main_spec args arg w N hargs hatoi hcreate hn ht
    exact ⟨w2, es.filterMap marshalLine, h, s3, hmem es, s4, s5, by rw [hcount, s3]⟩

/-- Witness of C2: the command line `log-maker 4` in `calmWorld`. -/
theorem generate_appends_exactly_witness :
    (∃ (w2 : World) (lines : List (List Nat)),
      generate ((4 : Nat) : Int) (rangeKeys animalSounds calmWorld.mapSeed) openWorld
        = Except.ok w2 ∧
      lines.length = 4 ∧ (∀ l ∈ lines, ∃ e, marshalLine e = some l) ∧
      stream w2 = stream openWorld ++ lines.flatten ∧ lines.flatten.count 10 = 4) ∧
    ∃ (w2 : World) (lines : List (List Nat)),
      main ["log-maker", "4"] calmWorld = Except.ok w2 ∧
      lines.length = 4 ∧ (∀ l ∈ lines, ∃ e, marshalLine e = some l) ∧
      w2.file = some lines.flatten ∧ w2.buf = [] ∧ lines.flatten.count 10 = 4 :=
  ⟨(generate_appends_exactly 4 openWorld).1 calmWorld.mapSeed [] rfl rfl (fun _ => rfl)
      (fun _ _ => epoch_marshals),
   (generate_appends_exactly 4 calmWorld).2.2 ["log-maker", "4"] "4" rfl rfl rfl
     (fun _ => rfl) (fun _ _ => epoch_marshals)⟩

/-- C5, as stated, fails: the JSON object of an entry has no member named
`message` (the message is written under `msg`), so its keys are not the field
names of the specification and a reader looking `message` up finds nothing;
the line that `Encode` hands to the writer shows the key `msg`. -/
theorem toJSON_lacks_message_key :
    sampleEntry.toJSON.lookup "message" = none ∧
    sampleEntry.toJSON.map Prod.fst ≠ specFieldNames ∧
    readEntry "message" sampleEntry.toJSON = none ∧
    panicOf (Encode sampleEntry openWorld) = none ∧
    stream (worldOf (Encode sampleEntry openWorld))
      = ascii ("\x7b\"container\":\"cow\",\"timestamp\":\"1970-01-01T00:00:00Z\"," ++
          "\"msg\":\"moo\",\"level\":\"DEBUG\",\"happiness\":5,\"id\":0\x7d\n") := by
  decide!

/-- C5, amended: the JSON object written for an entry has the keys container,
timestamp, msg, level, happiness, id, in this order; looking these keys up
gives back every field of the entry, so a reader using them recovers the
entry; and a successful `Encode` hands to the writer exactly the bytes of this
object followed by a newline. -/
theorem toJSON_keys_and_roundtrip (e : Entry) :
    e.toJSON.map Prod.fst = ["container", "timestamp", "msg", "level", "happiness", "id"] ∧
    e.toJSON.lookup "container" = some (JVal.str e.Container) ∧
    e.toJSON.lookup "timestamp" = some (JVal.time e.Timestamp) ∧
    e.toJSON.lookup "msg" = some (JVal.str e.Msg) ∧
    e.toJSON.lookup "level" = some (JVal.str e.Level) ∧
    e.toJSON.lookup "happiness" = some (JVal.num e.Happiness) ∧
    e.toJSON.lookup "id" = some (JVal.num e.ID) ∧
    readEntry "msg" e.toJSON = some e ∧
    ∀ (w w2 : World) (f : List Nat), w.file = some f → Encode e w = Except.ok w2 →
      ∃ o, renderObject e.toJSON = some o ∧ stream w2 = stream w ++ (o ++ [10]) := by
  refine ⟨rfl, rfl, rfl, rfl, rfl, rfl, rfl, rfl, ?_⟩
  intro w w2 f hf h
  obtain ⟨line, f2, e1, e2, e3, -⟩ := encode_spec e w w2 f hf h
  obtain ⟨o, h1, h2, -⟩ := marshalLine_shape e line e1
  refine ⟨o, h1, ?_⟩
  unfold stream
  rw [e2, hf]
  simp only [Option.getD_some, List.append_assoc]
  rw [e3, h2]

/-- Witness of the amended C5: `sampleEntry` written into the empty file. -/
theorem toJSON_keys_and_roundtrip_witness :
    readEntry "msg" sampleEntry.toJSON = some sampleEntry ∧
    ∃ (w2 : World) (o : List Nat),
      Encode sampleEntry openWorld = Except.ok w2 ∧
      renderObject sampleEntry.toJSON = some o ∧
      stream w2 = stream openWorld ++ (o ++ [10]) := by
  obtain ⟨line, hline⟩ := marshalLine_isSome sampleEntry _
    (Option.get_mem epoch_marshals)
  obtain ⟨w2, h, -⟩ := encode_ok sampleEntry openWorld line hline rfl (fun _ => rfl)
  obtain ⟨o, h1, h2⟩ :=
    (toJSON_keys_and_roundtrip sampleEntry).2.2.2.2.2.2.2.2 openWorld w2 [] rfl h
  exact ⟨(toJSON_keys_and_roundtrip sampleEntry).2.2.2.2.2.2.2.1, w2, o, h, h1, h2⟩

/-- C8: when the count argument is missing or is not a valid integer, `main`
panics before anything else happens: the world it leaves is the one it found,
so the file is neither created nor truncated, nothing is logged or written,
and no draw of the random source is taken. -/
theorem main_aborts_on_bad_argument (args : List String) (w : World)
    (h : args[1]? = none ∨
      ∃ arg, args[1]? = some arg ∧ ∃ p, strconv.Atoi arg = Except.error p) :
    main args w = Except.error (Panic.indexOutOfRange, w) ∨
    main args w = Except.error (Panic.atoiError, w) := by
  rcases h with h | ⟨arg, h1, p, h2⟩
  · left
    unfold main
    simp only [h]
  · right
    unfold main
    simp only [h1, h2]

/-- Witness of C8: the command lines `log-maker abc`, run while `example.json`
holds the three bytes `old`, and `log-maker`. -/
theorem main_aborts_on_bad_argument_witness :
    (main ["log-maker", "abc"] { calmWorld with file := some [111, 108, 100] }
        = Except.error (Panic.indexOutOfRange,
            { calmWorld with file := some [111, 108, 100] }) ∨
      main ["log-maker", "abc"] { calmWorld with file := some [111, 108, 100] }
        = Except.error (Panic.atoiError,
            { calmWorld with file := some [111, 108, 100] })) ∧
    (main ["log-maker"] calmWorld = Except.error (Panic.indexOutOfRange, calmWorld) ∨
      main ["log-maker"] calmWorld = Except.error (Panic.atoiError, calmWorld)) :=
  ⟨main_aborts_on_bad_argument ["log-maker", "abc"] _
      (Or.inr ⟨"abc", rfl, Panic.atoiError, rfl⟩),
   main_aborts_on_bad_argument ["log-maker"] calmWorld (Or.inl rfl)⟩

/-- C10: when the argument reads as a negative count `N`, the loop runs no
iteration, exactly as for the count 0: it leaves the world as it found it.
`main` then does what it does without the loop: once the file is created it
finishes normally with an empty file, having logged only the two records
around the loop and taken no draw and no clock reading. -/
theorem main_negative_count (args : List String) (arg : String) (w : World) (N : Int)
    (hargs : args[1]? = some arg) (hatoi : strconv.Atoi arg = Except.ok N)
    (hneg : N < 0) :
    (∀ (animals : List String) (v : World),
      generate N animals v = Except.ok v ∧ generate N animals v = generate 0 animals v) ∧
    (main args w =
      match os.Create (slog.Info (LogLine.creatingLog N) w) with
      | Except.error p => Except.error (p, slog.Info (LogLine.creatingLog N) w)
      | Except.ok w1 =>
        Except.ok (deferredCalls (slog.Info LogLine.done (bufio.NewWriter w1)))) ∧
    (w.createFails = false →
      ∃ w2, main args w = Except.ok w2 ∧ w2.file = some [] ∧
        w2.logs = w.logs ++ [LogLine.creatingLog N, LogLine.done] ∧
        w2.raw = w.raw ∧ w2.clock = w.clock) := by
  have hgen : ∀ (animals : List String) (v : World), generate N animals v = Except.ok v :=
    fun animals v => generate_nonpos N animals v (le_of_lt hneg)
  have hmain : main args w =
      match os.Create (slog.Info (LogLine.creatingLog N) w) with
      | Except.error p => Except.error (p, slog.Info (LogLine.creatingLog N) w)
      | Except.ok w1 =>
        Except.ok (deferredCalls (slog.Info LogLine.done (bufio.NewWriter w1))) := by
    unfold main
    simp only [hargs, hatoi]
    cases hc : os.Create (slog.Info (LogLine.creatingLog N) w) with
    | error p => rfl
    | ok w1 => simp only [hgen]
  refine ⟨fun animals v => ⟨hgen animals v, ?_⟩, hmain, ?_⟩
  · rw [hgen, generate_nonpos 0 animals v (le_refl 0)]
  · intro hcreate
    have hc : os.Create (slog.Info (LogLine.creatingLog N) w)
        = Except.ok { slog.Info (LogLine.creatingLog N) w with file := some [] } := by
      unfold os.Create
      simp [slog.Info, hcreate]
    rw [hmain, hc]
    refine ⟨_, rfl, rfl, ?_, rfl, rfl⟩
    simp [deferredCalls, bufio.Flush, bufio.NewWriter, slog.Info]

/-- Witness of C10: the command line `log-maker -5` in `calmWorld`. -/
theorem main_negative_count_witness :
    strconv.Atoi "-5" = Except.ok (-5) ∧
    ∃ w2, main ["log-maker", "-5"] calmWorld = Except.ok w2 ∧ w2.file = some [] ∧
      w2.logs = calmWorld.logs ++ [LogLine.creatingLog (-5), LogLine.done] ∧
      w2.raw = calmWorld.raw ∧ w2.clock = calmWorld.clock :=
  ⟨rfl, (main_negative_count ["log-maker", "-5"] "-5" calmWorld (-5) rfl rfl
    (by decide)).2.2 rfl⟩

/-! ## Two runs of the buffered writer -/

/-- The error of the deferred flush is dropped.  The command line
`log-maker 20`, with every draw `0`, puts 20 lines (2090 bytes) into the
buffer without touching the file; when the deferred flush then fails after 730
bytes, `main` still returns normally and the file holds 7 complete lines. -/
theorem main_drops_flush_error :
    panicOf (main ["log-maker", "20"] { calmWorld with writeFails := fun _ => some 730 })
      = none ∧
    ((worldOf (main ["log-maker", "20"]
      { calmWorld with writeFails := fun _ => some 730 })).file.map
        (fun bs => (bs.length, bs.count 10))) = some (730, 7) := by
  decide!

end LogMaker
